import Mathlib

/-!
Verification of the yt-m3u8 proxy service (src/main.py) against its
natural-language specification.

The development shallowly embeds the string- and list-level logic of the
Python source: pure Python functions become Lean functions over List Char /
String, dictionaries become association lists, Python's stable list.sort
becomes an insertion sort that is stable by construction, and the endpoint
handlers become total functions returning Except values (an error value
models a raised HTTPException, so an error result in particular means that
no outbound fetch is performed).  External library calls (yt-dlp extraction,
urllib.parse.urljoin) are modelled as parameters where their value is
irrelevant to the properties, and implemented concretely where it matters
(percent-quoting, netloc/path parsing, integer parsing and rendering).
-/

namespace YM3U8

/-! ## Python string primitives -/

/-- The whitespace characters stripped by Python str.strip (ASCII subset). -/
def pyIsSpace (c : Char) : Bool :=
  c = ' ' || c = '\t' || c = '\n' || c = '\x0b' || c = '\x0c' || c = '\r'

/-- Python str.strip on a character list. -/
def pstripL (l : List Char) : List Char :=
  ((l.dropWhile pyIsSpace).reverse.dropWhile pyIsSpace).reverse

/-- Python str.strip. -/
def pstrip (s : String) : String := String.mk (pstripL s.data)

/-- Python str.rstrip("/") on a character list: remove the trailing run of
slashes. -/
def rstripSlashL : List Char → List Char
  | [] => []
  | c :: cs =>
    match rstripSlashL cs with
    | [] => if c = '/' then [] else [c]
    | r :: rs => c :: r :: rs

/-- Python str.rstrip("/"). -/
def rstripSlash (s : String) : String := String.mk (rstripSlashL s.data)

/-- Python str.splitlines restricted to the newline character, which is the
only line terminator the program ever produces.  Note that a trailing
newline does not produce a final empty entry, exactly as in Python. -/
def splitlines : List Char → List (List Char)
  | [] => []
  | c :: rest =>
    if c = '\n' then [] :: splitlines rest
    else
      match splitlines rest with
      | [] => [[c]]
      | g :: gs => (c :: g) :: gs

/-- splitlines at the String level. -/
def splitlinesStr (s : String) : List String := (splitlines s.data).map String.mk

/-- Python "\n".join on character-list lines. -/
def joinLines : List (List Char) → List Char
  | [] => []
  | [g] => g
  | g :: g' :: gs => g ++ '\n' :: joinLines (g' :: gs)

/-! ## Rendering of integers (Python str on int values) -/

/-- The decimal digit characters. -/
def digitChar : Nat → Char
  | 0 => '0' | 1 => '1' | 2 => '2' | 3 => '3' | 4 => '4'
  | 5 => '5' | 6 => '6' | 7 => '7' | 8 => '8' | _ => '9'

/-- Decimal digits of a natural number, most significant first, with fuel to
keep the recursion structural. -/
def natCharsAux : Nat → Nat → List Char
  | 0, _ => []
  | fuel + 1, n =>
    if n < 10 then [digitChar n]
    else natCharsAux fuel (n / 10) ++ [digitChar (n % 10)]

/-- Python str on a non-negative int. -/
def natRepr (n : Nat) : String := String.mk (natCharsAux (n + 1) n)

/-- Python str on an int. -/
def intRepr (i : Int) : String :=
  if i < 0 then "-" ++ natRepr i.natAbs else natRepr i.natAbs

/-! ## Percent-quoting (urllib.parse.quote with safe set empty) -/

/-- UTF-8 bytes of a character, as natural numbers below 256. -/
def utf8Bytes (c : Char) : List Nat :=
  let n := c.toNat
  if n < 0x80 then [n]
  else if n < 0x800 then [0xC0 + n / 64, 0x80 + n % 64]
  else if n < 0x10000 then
    [0xE0 + n / 4096, 0x80 + (n / 64) % 64, 0x80 + n % 64]
  else
    [0xF0 + n / 262144, 0x80 + (n / 4096) % 64, 0x80 + (n / 64) % 64, 0x80 + n % 64]

/-- Upper-case hexadecimal digit, as produced by urllib.parse.quote. -/
def hexDigit : Nat → Char
  | 0 => '0' | 1 => '1' | 2 => '2' | 3 => '3' | 4 => '4' | 5 => '5'
  | 6 => '6' | 7 => '7' | 8 => '8' | 9 => '9' | 10 => 'A' | 11 => 'B'
  | 12 => 'C' | 13 => 'D' | 14 => 'E' | _ => 'F'

/-- The characters urllib.parse.quote never escapes. -/
def isUnreservedChar (c : Char) : Bool :=
  c.isAlpha || c.isDigit || c = '-' || c = '.' || c = '_' || c = '~'

/-- Percent-escape of one byte. -/
def percentByte (b : Nat) : List Char := ['%', hexDigit (b / 16), hexDigit (b % 16)]

/-- urllib.parse.quote of one character (safe set empty): unreserved ASCII
characters pass through, everything else is percent-encoded bytewise. -/
def pyQuoteChar (c : Char) : List Char :=
  if c.toNat < 128 then
    if isUnreservedChar c then [c] else percentByte c.toNat
  else (utf8Bytes c).foldr (fun b acc => percentByte b ++ acc) []

/-- urllib.parse.quote(s, safe=""). -/
def pyQuote (s : String) : String :=
  String.mk (s.data.foldr (fun c acc => pyQuoteChar c ++ acc) [])

/-! ## Substring and suffix tests on character lists -/

/-- Whether pat occurs as a contiguous substring (here: infix of the character
list).  This models the Python expression pat in s. -/
def containsSub (pat : List Char) : List Char → Bool
  | [] => decide (pat = [])
  | c :: cs => decide ((c :: cs).take pat.length = pat) || containsSub pat cs

/-- Whether the list ends with pat; models Python str.endswith. -/
def endsWithL (pat l : List Char) : Bool :=
  decide (l.length ≥ pat.length ∧ l.drop (l.length - pat.length) = pat)

/-- str.endswith at the String level. -/
def endsWithStr (pat s : String) : Bool := endsWithL pat.data s.data

/-- Python substring test at the String level. -/
def containsStr (pat s : String) : Bool := containsSub pat.data s.data

/-! ## The proxy link constructor (proxy_url in the source) -/

/-- proxy_url: the service base URL with trailing slashes removed, the /proxy
route, and the percent-quoted target.  The source takes the FastAPI request;
here the service base URL string is passed directly. -/
def proxy_url (serviceBase target : String) : String :=
  rstripSlash serviceBase ++ "/proxy?url=" ++ pyQuote target

/-! ## Python stable sort

Python list.sort(key=...) is a stable sort by an integer key.  It is modelled
by insertion from the left: each element is inserted after all already-placed
elements whose key is less than or equal to its own, which preserves the
original order of elements with equal keys, exactly as a stable sort does.
sort(..., reverse=True) equals the stable ascending sort on the negated key
(same ties, same order within ties). -/

/-- Insert a after every element of the accumulated (sorted) list whose key is
less than or equal to key a. -/
def pyInsert (key : α → Int) : List α → α → List α
  | [], a => [a]
  | b :: bs, a => if key b ≤ key a then b :: pyInsert key bs a else a :: b :: bs

/-- Stable ascending sort by key (Python list.sort(key=...)). -/
def pySortAsc (key : α → Int) (l : List α) : List α := l.foldl (pyInsert key) []

/-- Stable descending sort by key (Python list.sort(key=..., reverse=True)). -/
def pySortDesc (key : α → Int) (l : List α) : List α :=
  pySortAsc (fun x => -(key x)) l

/-! ## Python int() parsing (quality literal) -/

/-- Value of a nonempty all-digit string. -/
def digitsToNat (l : List Char) : Option Nat :=
  if l ≠ [] ∧ l.all Char.isDigit then
    some (l.foldl (fun acc c => acc * 10 + (c.toNat - 48)) 0)
  else none

/-- Python int(str): strips surrounding whitespace, allows one leading sign,
then requires only decimal digits.  (Underscore digit separators, accepted by
CPython, are not modelled; no quality string in scope uses them.) -/
def parsePyInt (s : String) : Option Int :=
  match pstripL s.data with
  | [] => none
  | '+' :: ds => (digitsToNat ds).map (fun n => (n : Int))
  | '-' :: ds => (digitsToNat ds).map (fun n => -(n : Int))
  | ds => (digitsToNat ds).map (fun n => (n : Int))

/-! ## The extraction data model (yt-dlp format dictionaries) -/

/-- One yt-dlp format dictionary, restricted to the keys the program reads.
A Python value of None is Option.none; an absent key behaves like None for
every read the program performs, so both are collapsed to none.  A missing
or None url is collapsed to the empty string (both are falsy in the source's
truthiness tests, and the url is only ever used as a string).  Frame rates
are modelled as integers. -/
structure Format where
  format_id : String
  vcodec : Option String
  height : Option Nat
  width : Option Nat
  fps : Option Nat
  tbr : Option ℚ
  url : String
  protocol : Option String
deriving DecidableEq

/-- f.get("vcodec") not in ("none", None). -/
def hasVideo (f : Format) : Bool :=
  match f.vcodec with
  | none => false
  | some s => decide (s ≠ "none")

/-- The video-bearing formats with a usable URL, as filtered by get_m3u8. -/
def eligible (formats : List Format) : List Format :=
  formats.filter (fun f => hasVideo f && decide (f.url ≠ ""))

/-- f.get("height", 0) or 0. -/
def effHeight (f : Format) : Nat := f.height.getD 0

/-- The same height as an integer sort key. -/
def effHeightZ (f : Format) : Int := (effHeight f : Int)

/-- The quality-selection ordering step of get_m3u8 (src/main.py lines
428-437): best sorts by descending height, worst by ascending height, a
parsable integer t by ascending distance of the height from t, and an
unparsable literal falls back to descending height.  The caller then takes
the head of the resulting list. -/
def selectQuality (quality : String) (vf : List Format) : List Format :=
  if quality = "best" then pySortDesc effHeightZ vf
  else if quality = "worst" then pySortAsc effHeightZ vf
  else
    match parsePyInt quality with
    | some t => pySortAsc (fun f => |effHeightZ f - t|) vf
    | none => pySortDesc effHeightZ vf

/-- Scenario variant of height 144. -/
def fmt144 : Format := ⟨"f144", some "avc1", some 144, none, none, none, "http://o/144", none⟩

/-- Scenario variant of height 720, listed before the 360 one. -/
def fmt720 : Format := ⟨"f720", some "avc1", some 720, none, none, none, "http://o/720", none⟩

/-- Scenario variant of height 360. -/
def fmt360 : Format := ⟨"f360", some "avc1", some 360, none, none, none, "http://o/360", none⟩

/-- Scenario variant of height 1080. -/
def fmt1080 : Format := ⟨"f1080", some "avc1", some 1080, none, none, none, "http://o/1080", none⟩

/-- The spec's scenario 2 input: heights 144, 360, 720, 1080 present, with
720 preceding 360 in the input order. -/
def scenarioFormats : List Format := [fmt144, fmt720, fmt360, fmt1080]

/-! ## The subplaylist format-matching step -/

/-- The formats matching the requested format_id and carrying a URL. -/
def matchedFormats (formats : List Format) (fid : String) : List Format :=
  formats.filter (fun f => decide (f.format_id = fid) && decide (f.url ≠ ""))

/-- Format choice of the subplaylist endpoint (src/main.py lines 307-316):
the first format whose format_id matches and which has a URL; otherwise the
video-bearing formats with a URL sorted by descending height; 404 when that
fallback list is empty too. -/
def subplaylistChoice (formats : List Format) (fid : String) : Except Nat Format :=
  match (matchedFormats formats fid).head? with
  | some c => .ok c
  | none =>
    match (pySortDesc effHeightZ (eligible formats)).head? with
    | some c => .ok c
    | none => .error 404

/-! ## Numeric helpers for playlist building -/

/-- Python int() on a rational: truncation toward zero. -/
def pyTrunc (q : ℚ) : Int := q.num.tdiv q.den

/-- Round half to even of q * 1000, the rounding used by Python fixed-point
formatting at 3 decimal places, computed on the exact numerator and
denominator (the value q * 1000 equals (q.num * 1000) / q.den). -/
def roundHalfEven1000 (q : ℚ) : Int :=
  let n := q.num * 1000
  let d : Int := q.den
  let f := n.fdiv d
  let r := n - d * f
  if 2 * r < d then f
  else if d < 2 * r then f + 1
  else if f % 2 = 0 then f else f + 1

/-- Three-digit zero-padded rendering of a value below 1000. -/
def pad3 (k : Nat) : String :=
  if k < 10 then "00" ++ natRepr k
  else if k < 100 then "0" ++ natRepr k
  else natRepr k

/-- Python format spec .3f over the rational model of the duration. -/
def formatFixed3 (q : ℚ) : String :=
  if roundHalfEven1000 q < 0 then
    "-" ++ natRepr ((roundHalfEven1000 q).natAbs / 1000) ++ "."
      ++ pad3 ((roundHalfEven1000 q).natAbs % 1000)
  else
    natRepr ((roundHalfEven1000 q).natAbs / 1000) ++ "."
      ++ pad3 ((roundHalfEven1000 q).natAbs % 1000)

/-! ## The extraction aggregate (yt-dlp info dictionary) -/

/-- The fields of the yt-dlp info dictionary that the program reads.  Missing
keys are collapsed to none (or to the empty string for webpage_url, matching
the source's own default). -/
structure VideoInfo where
  id : String
  title : Option String
  duration : Option ℚ
  is_live : Bool
  live_status : Option String
  webpage_url : String
  formats : List Format
deriving DecidableEq

/-- The liveness test of get_m3u8: info.get("is_live") or live_status in
("is_live", "is_upcoming"). -/
def isLiveFlag (info : VideoInfo) : Bool :=
  info.is_live || decide (info.live_status = some "is_live")
    || decide (info.live_status = some "is_upcoming")

/-- info.get("duration", 0) or 0. -/
def durOf (info : VideoInfo) : ℚ := info.duration.getD 0

/-- info.get("title", "video"). -/
def titleOf (info : VideoInfo) : String := info.title.getD "video"

/-! ## Master playlist construction (build_master_m3u8_from_formats) -/

/-- f.get("tbr") or 0, the bitrate used for the per-height comparison. -/
def tbr0 (f : Format) : ℚ := f.tbr.getD 0

/-- The formats eligible for the master playlist: video codec, truthy height,
truthy URL (src/main.py lines 147-152). -/
def videoFormats (formats : List Format) : List Format :=
  formats.filter (fun f => hasVideo f && decide (effHeight f ≠ 0) && decide (f.url ≠ ""))

/-- Lookup in the association list modelling the by_height dictionary. -/
def alookup (h : Nat) : List (Nat × Format) → Option Format
  | [] => none
  | p :: ps => if p.1 = h then some p.2 else alookup h ps

/-- One step of the by_height deduplication loop (src/main.py lines 158-162):
insert the format at its height, replacing the stored one only when the new
bitrate is strictly larger (Python dict update keeps the insertion
position). -/
def updByHeight (m : List (Nat × Format)) (f : Format) : List (Nat × Format) :=
  match alookup (effHeight f) m with
  | none => m ++ [(effHeight f, f)]
  | some g =>
    if tbr0 g < tbr0 f then
      m.map (fun p => if p.1 = effHeight f then (effHeight f, f) else p)
    else m

/-- The by_height dictionary after the loop. -/
def byHeight (fs : List Format) : List (Nat × Format) := fs.foldl updByHeight []

/-- by_height.values(). -/
def dedupFormats (fs : List Format) : List Format := (byHeight fs).map Prod.snd

/-- The formats emitted into the master playlist: per-height best-bitrate
formats, sorted by descending height, capped at 8. -/
def masterFormats (formats : List Format) : List Format :=
  (pySortDesc effHeightZ (dedupFormats (videoFormats formats))).take 8

/-- w = f.get("width") or int(h * 16 / 9). -/
def widthOf (f : Format) : Nat :=
  if f.width.getD 0 ≠ 0 then f.width.getD 0 else effHeight f * 16 / 9

/-- f.get("tbr") or 1000 (the 1000 kbps default). -/
def tbrOr1000 (f : Format) : ℚ := if tbr0 f = 0 then 1000 else tbr0 f

/-- int(q * 1000), computed on the exact numerator and denominator (the
value q * 1000 equals (q.num * 1000) / q.den, and int() truncates toward
zero). -/
def pyTruncMul1000 (q : ℚ) : Int := (q.num * 1000).tdiv q.den

/-- bw = int((f.get("tbr") or 1000) * 1000). -/
def bwOf (f : Format) : Int := pyTruncMul1000 (tbrOr1000 f)

/-- fps = f.get("fps") or 30. -/
def fpsOf (f : Format) : Nat := if f.fps.getD 0 ≠ 0 then f.fps.getD 0 else 30

/-- The sub-playlist URL for one format (src/main.py lines 177-181). -/
def subUrl (base webpageUrl fid : String) : String :=
  rstripSlash base ++ "/api/subplaylist?video_url=" ++ pyQuote webpageUrl
    ++ "&format_id=" ++ pyQuote fid

/-- The EXT-X-STREAM-INF line for one format (src/main.py line 183). -/
def streamInfLine (f : Format) : String :=
  "#EXT-X-STREAM-INF:BANDWIDTH=" ++ intRepr (bwOf f)
    ++ ",RESOLUTION=" ++ natRepr (widthOf f) ++ "x" ++ natRepr (effHeight f)
    ++ ",FRAME-RATE=" ++ natRepr (fpsOf f)
    ++ ",NAME=\"" ++ natRepr (effHeight f) ++ "p\""

/-- build_master_m3u8_from_formats: none models the 404 raised when no
video format is available. -/
def build_master_m3u8_from_formats (info : VideoInfo) (base : String) : Option String :=
  if videoFormats info.formats = [] then none
  else some ("#EXTM3U\n#EXT-X-VERSION:3\n\n"
    ++ String.join ((masterFormats info.formats).map
        (fun f => streamInfLine f ++ "\n"
          ++ subUrl base info.webpage_url f.format_id ++ "\n")))

/-! ## Single-segment playlist construction (build_single_m3u8) -/

/-- build_single_m3u8 (src/main.py lines 189-199).  The target duration uses
Python int(), i.e. truncation, not ceiling. -/
def build_single_m3u8 (stream_url : String) (duration : ℚ)
    (title : String) (base : String) : String :=
  "#EXTM3U\n#EXT-X-VERSION:3\n"
    ++ "#EXT-X-TARGETDURATION:" ++ intRepr (pyTrunc duration + 1) ++ "\n"
    ++ "#EXT-X-MEDIA-SEQUENCE:0\n#EXT-X-PLAYLIST-TYPE:VOD\n"
    ++ "#EXTINF:" ++ formatFixed3 duration ++ "," ++ title ++ "\n"
    ++ proxy_url base stream_url ++ "\n"
    ++ "#EXT-X-ENDLIST\n"

/-! ## The playlist endpoint dispatch (get_m3u8) -/

/-- chosen.get("protocol") in ("m3u8", "m3u8_native"). -/
def isHlsProto (f : Format) : Bool :=
  decide (f.protocol = some "m3u8") || decide (f.protocol = some "m3u8_native")

/-- The one-entry master pointing at the subplaylist endpoint, emitted when
the chosen single-quality format is itself an HLS stream (src/main.py lines
443-457).  The sub URL embeds the request's url query parameter. -/
def oneEntryMaster (chosen : Format) (urlParam base : String) : String :=
  "#EXTM3U\n#EXT-X-VERSION:3\n"
    ++ "#EXT-X-STREAM-INF:BANDWIDTH=" ++ intRepr (bwOf chosen)
    ++ ",RESOLUTION=" ++ natRepr (widthOf chosen) ++ "x" ++ natRepr (effHeight chosen) ++ "\n"
    ++ subUrl base urlParam chosen.format_id ++ "\n"

/-- The kind of playlist body a successful get_m3u8 response carries. -/
inductive PlaylistKind
  | masterPlaylist
  | singleEntryMaster
  | singleSegment
deriving DecidableEq

/-- The get_m3u8 handler after a successful extraction (src/main.py lines
411-470): master/live requests produce the synthetic master playlist; a
single-quality request selects a format and produces either a one-entry
master (HLS-protocol format) or a single-segment playlist.  Error values
model raised HTTPExceptions. -/
def getM3u8Response (info : VideoInfo) (urlParam quality base : String) :
    Except Nat (PlaylistKind × String) :=
  if quality = "master" || isLiveFlag info then
    match build_master_m3u8_from_formats info base with
    | none => .error 404
    | some s => .ok (.masterPlaylist, s)
  else
    match (selectQuality quality (eligible info.formats)).head? with
    | none => .error 404
    | some chosen =>
      if isHlsProto chosen then
        .ok (.singleEntryMaster, oneEntryMaster chosen urlParam base)
      else
        .ok (.singleSegment,
          build_single_m3u8 chosen.url (durOf info) (titleOf info) base)

/-- A second 720-height variant with a higher bitrate, for the witness. -/
def fmt720hi : Format :=
  ⟨"f720hi", some "avc1", some 720, some 1280, some 60, some 2500, "http://o/720hi", none⟩

/-- A concrete extraction result exercising the per-height deduplication. -/
def masterInfo : VideoInfo :=
  ⟨"vid", some "T", some 100, false, none, "http://y/watch",
    [fmt144, fmt720, fmt720hi, fmt360, fmt1080]⟩

/-- A duration of exactly 10.5 seconds. -/
def dHalf : ℚ := ⟨21, 2, by decide, by decide⟩

/-! ## The manifest rewriter (rewrite_m3u8)

The regex substitution re.sub(r'URI="([^"]+)"', repl, line) is modelled by a
leftmost-match scanner.  urllib.parse.urljoin is passed as a function
parameter uj: none of the verified properties depend on its value, so the
theorems hold for every resolver. -/

/-- Split a character list at its first double quote: returns the characters
before the quote and those after it. -/
def splitQuoted : List Char → Option (List Char × List Char)
  | [] => none
  | c :: cs =>
    if c = '"' then some ([], cs)
    else
      match splitQuoted cs with
      | none => none
      | some (ct, a) => some (c :: ct, a)

/-- The leftmost complete occurrence of the pattern URI="([^"]+)": the
characters before the match, the nonempty quoted content, and the characters
after the closing quote.  An occurrence of URI="" (empty content) is not a
match, exactly as for the regex, and scanning continues after its U. -/
def findURIAttr : List Char → Option (List Char × List Char × List Char)
  | [] => none
  | c :: cs =>
    if c = 'U' ∧ cs.take 4 = ['R', 'I', '=', '"'] then
      match splitQuoted (cs.drop 4) with
      | some (ct, a) =>
        if ct ≠ [] then some ([], ct, a)
        else
          match findURIAttr cs with
          | none => none
          | some (b, ct2, a2) => some (c :: b, ct2, a2)
      | none =>
        match findURIAttr cs with
        | none => none
        | some (b, ct2, a2) => some (c :: b, ct2, a2)
    else
      match findURIAttr cs with
      | none => none
      | some (b, ct2, a2) => some (c :: b, ct2, a2)

/-- Repeated leftmost replacement of URI="content" by URI="f content",
mirroring re.sub.  The fuel argument only bounds the number of
replacements; each match consumes at least six characters, so fuel equal to
the length of the line is always sufficient. -/
def scanURIF (f : String → String) : Nat → List Char → List Char
  | 0, l => l
  | fuel + 1, l =>
    match findURIAttr l with
    | none => l
    | some (b, ct, a) =>
      b ++ ('U' :: 'R' :: 'I' :: '=' :: '"' ::
        ((f (String.mk ct)).data ++ '"' :: scanURIF f fuel a))

/-- re.sub(r'URI="([^"]+)"', lambda m: URI="f(m.group(1))", line). -/
def pyReSubURI (f : String → String) (line : String) : String :=
  String.mk (scanURIF f line.data.length line.data)

/-- One line of rewrite_m3u8 (src/main.py lines 99-118): blank lines pass
through; tag lines get their URI="..." attributes rewritten to proxy links;
bare resource lines are replaced whole by a proxy link for the resolved URL.
The source computes the regex substitution before testing for a tag marker
and then discards it on bare lines; the order of the tests here is
observably identical. -/
def rewriteLine (uj : String → String → String) (base_url serviceBase : String)
    (line : String) : String :=
  if pstrip line = "" then line
  else if (pstrip line).data.head? = some '#' then
    pyReSubURI (fun uri => proxy_url serviceBase (uj base_url uri)) line
  else proxy_url serviceBase (uj base_url (pstrip line))

/-- rewrite_m3u8: split into lines, rewrite each, join with newlines. -/
def rewrite_m3u8 (uj : String → String → String)
    (content base_url serviceBase : String) : String :=
  String.mk (joinLines ((splitlines content.data).map
    (fun l => (rewriteLine uj base_url serviceBase (String.mk l)).data)))

/-- A concrete resolver standing in for urljoin in witnesses. -/
def uj0 : String → String → String := fun _ u => u

/-! ## The sequence-aware rewrite (modelled from the spec)

The repository revision under src/ only contains the generic proxy rewrite;
the sequence-aware variant and the segment-reconstruction endpoint described
by the spec (section 4.3 sequence-aware variant, section 6 the /segment
route) are not present.  The following definitions are modelled from the
spec's words. -/

/-- Modelled from the spec: extract the numeric sequence token from the
first path segment matching /sq/(digits)/ in the line. -/
def seqToken : List Char → Option Nat
  | [] => none
  | c :: cs =>
    if c = '/' ∧ cs.take 3 = ['s', 'q', '/'] then
      if ((cs.drop 3).takeWhile Char.isDigit) ≠ []
          ∧ ((cs.drop 3).drop (((cs.drop 3).takeWhile Char.isDigit).length)).head?
            = some '/' then
        some (((cs.drop 3).takeWhile Char.isDigit).foldl
          (fun acc d => acc * 10 + (d.toNat - 48)) 0)
      else seqToken cs
    else seqToken cs

/-- Modelled from the spec: the reconstruction link keyed by (video
reference, variant identifier, sequence number) produced for the /segment
route of section 6. -/
def reconLink (videoRef variantId : String) (n : Nat) : String :=
  "/segment?video=" ++ videoRef ++ "&variant=" ++ variantId ++ "&sq=" ++ natRepr n

/-- Modelled from the spec: the sequence-aware rewrite of one manifest line.
Blank and tag lines pass through; a bare line whose URL path carries a
/sq/(number)/ segment is replaced by the reconstruction link for that
number; a bare line without a recognizable token passes through unchanged
(the spec's stated deliberate limitation). -/
def rewriteLineSeq (videoRef variantId : String) (line : String) : String :=
  if pstrip line = "" then line
  else if (pstrip line).data.head? = some '#' then line
  else
    match seqToken (pstrip line).data with
    | some n => reconLink videoRef variantId n
    | none => line

/-! ## The proxy endpoint (host allow-list and target classification)

The handler receives the target already unquoted; the urllib.parse.unquote
applied by the route layer is outside the model.  urlparse is modelled for
well-formed absolute URLs: an authority is introduced by a leading // or by
scheme://, it ends at the first /, ? or #, and the path runs from there to
the first ? or #; urlparse's full scheme validation is not modelled (no
claim exercises scheme-less or malformed URLs past the allow-list
rejection). -/

/-- ALLOWED_PROXY_HOSTS (src/main.py lines 204-211). -/
def ALLOWED_PROXY_HOSTS : List String :=
  ["googlevideo.com", "manifest.googlevideo.com",
   "rr1---sn", "rr2---sn", "rr3---sn", "rr4---sn", "rr5---sn",
   "googleusercontent.com", "youtube.com", "ytimg.com"]

/-- any(allowed in host for allowed in ALLOWED_PROXY_HOSTS): substring
containment, exactly as the Python in operator. -/
def hostAllowed (host : String) : Bool :=
  ALLOWED_PROXY_HOSTS.any (fun a => containsSub a.data host.data)

/-- The scheme candidate: the prefix before any of : / ? #. -/
def schemePre (cs : List Char) : List Char :=
  cs.takeWhile (fun c => !(c = ':' || c = '/' || c = '?' || c = '#'))

/-- The characters after the authority marker, when the URL has one. -/
def authorityRest (cs : List Char) : Option (List Char) :=
  if cs.take 2 = ['/', '/'] then some (cs.drop 2)
  else
    match cs.drop (schemePre cs).length with
    | ':' :: r =>
      if (schemePre cs) ≠ [] ∧ r.take 2 = ['/', '/'] then some (r.drop 2) else none
    | _ => none

/-- urlparse(target).netloc. -/
def pyNetloc (url : String) : String :=
  match authorityRest url.data with
  | none => ""
  | some r => String.mk (r.takeWhile (fun c => !(c = '/' || c = '?' || c = '#')))

/-- urlparse(target).path. -/
def pyPath (url : String) : String :=
  match authorityRest url.data with
  | some r =>
    String.mk ((r.dropWhile (fun c => !(c = '/' || c = '?' || c = '#'))).takeWhile
      (fun c => !(c = '?' || c = '#')))
  | none => String.mk (url.data.takeWhile (fun c => !(c = '?' || c = '#')))

/-- parsed_target.path.lower(). -/
def pathLower (url : String) : List Char := (pyPath url).data.map Char.toLower

/-- path_lower.split("?")[0]. -/
def pathEnd (url : String) : List Char := (pathLower url).takeWhile (fun c => !(c = '?'))

/-- is_segment (src/main.py line 230): a /sq/ component or a .ts, .aac or
.m4s suffix marks a binary segment, never a manifest. -/
def isSegmentPath (url : String) : Bool :=
  containsSub "/sq/".data (pathLower url)
  || endsWithL ".ts".data (pathLower url)
  || endsWithL ".aac".data (pathLower url)
  || endsWithL ".m4s".data (pathLower url)

/-- is_m3u8 (src/main.py lines 231-236). -/
def isM3u8Path (url : String) : Bool :=
  !(isSegmentPath url)
  && (endsWithL ".m3u8".data (pathLower url)
      || endsWithL "index.m3u8".data (pathLower url)
      || (containsSub "/hls_playlist/".data (pathLower url) && !(isSegmentPath url))
      || (containsSub "/hls_manifest/".data (pathLower url) && !(isSegmentPath url)))

/-- The content-type inference for the binary branch (src/main.py lines
254-262). -/
def segContentType (url : String) : String :=
  if endsWithL ".ts".data (pathEnd url) || containsSub "/seg.ts".data (pathLower url)
      || containsSub "/sq/".data (pathLower url) then "video/mp2t"
  else if endsWithL ".m4s".data (pathEnd url) || endsWithL ".mp4".data (pathEnd url) then
    "video/mp4"
  else if endsWithL ".aac".data (pathEnd url) then "audio/aac"
  else "application/octet-stream"

/-- The outbound action a successful proxy request dispatches to. -/
inductive ProxyAction
  | fetchManifestAndRewrite (target : String)
  | fetchSegment (target : String) (contentType : String)
deriving DecidableEq

/-- The proxy endpoint up to its outbound fetch (src/main.py lines
214-262): reject non-allow-listed hosts with 403 performing no fetch, then
dispatch manifests to the text fetch + rewriter and everything else to the
raw byte fetch with the inferred content type. -/
def proxy_endpoint (target : String) : Except Nat ProxyAction :=
  if hostAllowed (pyNetloc target) = false then .error 403
  else if isM3u8Path target then .ok (.fetchManifestAndRewrite target)
  else .ok (.fetchSegment target (segContentType target))

/-- A host that merely contains an allow-list entry as a substring. -/
def evilHost : String := "googlevideo.com.evil.example"

/-- An allow-listed target with a manifest-like mid-path name, a /sq/
component and an audio extension. -/
def sqAacTarget : String :=
  "https://manifest.googlevideo.com/videoplayback/playlist/index.m3u8/sq/5/file.aac"

/-- A live-segment target whose path embeds index.m3u8 before the /sq/
component, as in the source's own comment. -/
def segTsTarget : String :=
  "https://manifest.googlevideo.com/videoplayback/playlist/index.m3u8/sq/6781535/seg.ts"

/-! ## The shared-secret gate (check_key) -/

/-- request.headers.get("X-API-Key") or request.query_params.get("api_key"):
Python's or falls through on a missing or empty header value. -/
def effKey (headerKey queryKey : Option String) : Option String :=
  match headerKey with
  | some h => if h = "" then queryKey else some h
  | none => queryKey

/-- check_key (src/main.py lines 64-69): no-op when no key is configured,
otherwise 401 unless the effective supplied key equals the configured
one. -/
def check_key (apiKey : String) (headerKey queryKey : Option String) : Option Nat :=
  if apiKey = "" then none
  else if effKey headerKey queryKey = some apiKey then none
  else some 401

/-- The HTTP endpoints of the application. -/
inductive Endpoint
  | root | m3u8 | formats | streamUrl | info | health | proxy | subplaylist
  | cookiesUpload | cookiesStatus | cookiesDelete
deriving DecidableEq

/-- Which handlers invoke check_key, transcribed from the source: get_m3u8,
get_formats, get_stream_url, get_info and the three cookie endpoints call
check_key(request); root, health, proxy_endpoint and subplaylist do not. -/
def enforcesKey : Endpoint → Bool
  | .m3u8 => true
  | .formats => true
  | .streamUrl => true
  | .info => true
  | .cookiesUpload => true
  | .cookiesStatus => true
  | .cookiesDelete => true
  | .root => false
  | .health => false
  | .proxy => false
  | .subplaylist => false

theorem mem_splitlines_no_newline :
    ∀ (l : List Char), ∀ g ∈ splitlines l, '\n' ∉ g := by
  intro l
  induction l with
  | nil => intro g hg; simp [splitlines] at hg
  | cons c rest ih =>
    intro g hg
    by_cases hc : c = '\n'
    · simp [splitlines, hc] at hg
      rcases hg with hg | hg
      · subst hg; simp
      · exact ih g hg
    · simp [splitlines, hc] at hg
      rcases hrest : splitlines rest with - | ⟨g0, gs⟩
      · rw [hrest] at hg
        simp at hg
        subst hg
        intro hmem
        simp at hmem
        exact hc hmem.symm
      · rw [hrest] at hg
        simp at hg
        rcases hg with hg | hg
        · subst hg
          intro hmem
          simp at hmem
          rcases hmem with hmem | hmem
          · exact hc hmem.symm
          · exact ih g0 (by rw [hrest]; simp) hmem
        · exact ih g (by rw [hrest]; simp [hg])

theorem splitlines_ne_nil {l : List Char} (h : l ≠ []) : splitlines l ≠ [] := by
  cases l with
  | nil => exact absurd rfl h
  | cons c rest =>
    by_cases hc : c = '\n'
    · simp [splitlines, hc]
    · simp only [splitlines, if_neg hc]
      rcases splitlines rest with - | ⟨g, gs⟩ <;> simp

theorem splitlines_single {g : List Char} (hne : g ≠ []) (hnl : '\n' ∉ g) :
    splitlines g = [g] := by
  induction g with
  | nil => exact absurd rfl hne
  | cons c rest ih =>
    have hc : c ≠ '\n' := by intro h; exact hnl (by simp [h])
    simp only [splitlines, if_neg hc]
    rcases hrest : rest with - | ⟨d, ds⟩
    · simp [splitlines]
    · have hr : splitlines rest = [rest] := by
        apply ih
        · rw [hrest]; simp
        · exact fun hm => hnl (List.mem_cons_of_mem _ hm)
      rw [hrest] at hr
      rw [hr]

theorem splitlines_append_newline {g t : List Char} (hnl : '\n' ∉ g) :
    splitlines (g ++ '\n' :: t) = g :: splitlines t := by
  induction g with
  | nil => simp [splitlines]
  | cons c rest ih =>
    have hc : c ≠ '\n' := by intro h; exact hnl (by simp [h])
    have ih' := ih (fun hm => hnl (List.mem_cons_of_mem _ hm))
    simp only [List.cons_append, splitlines, if_neg hc, List.append_eq, ih']

theorem splitlines_joinLines :
    ∀ (gs : List (List Char)), (∀ g ∈ gs, '\n' ∉ g) →
      gs.getLast? ≠ some [] → splitlines (joinLines gs) = gs := by
  intro gs
  induction gs with
  | nil => intro _ _; simp [joinLines, splitlines]
  | cons g rest ih =>
    intro hnl hlast
    rcases hrest : rest with - | ⟨g', gs'⟩
    · subst hrest
      have hgne : g ≠ [] := by
        intro h
        apply hlast
        simp [h]
      exact splitlines_single hgne (hnl g (by simp))
    · subst hrest
      have : joinLines (g :: g' :: gs') = g ++ '\n' :: joinLines (g' :: gs') := rfl
      rw [this, splitlines_append_newline (hnl g (by simp))]
      rw [ih (fun x hx => hnl x (List.mem_cons_of_mem _ hx))
        (by simpa [List.getLast?] using hlast)]

theorem digitChar_ne_newline (d : Nat) : digitChar d ≠ '\n' := by
  unfold digitChar
  split <;> decide

theorem mem_natCharsAux_ne_newline :
    ∀ (fuel n : Nat), ∀ c ∈ natCharsAux fuel n, c ≠ '\n' := by
  intro fuel
  induction fuel with
  | zero => intro n c hc; simp [natCharsAux] at hc
  | succ fuel ih =>
    intro n c hc
    unfold natCharsAux at hc
    by_cases h : n < 10
    · rw [if_pos h] at hc
      have : c = digitChar n := by simpa using hc
      rw [this]
      exact digitChar_ne_newline n
    · rw [if_neg h] at hc
      rcases List.mem_append.mp hc with hc | hc
      · exact ih _ c hc
      · have : c = digitChar (n % 10) := by simpa using hc
        rw [this]
        exact digitChar_ne_newline (n % 10)

theorem natRepr_no_newline (n : Nat) : '\n' ∉ (natRepr n).data := by
  intro h
  exact mem_natCharsAux_ne_newline (n + 1) n '\n' h rfl

theorem intRepr_no_newline (i : Int) : '\n' ∉ (intRepr i).data := by
  intro h
  unfold intRepr at h
  split at h
  · rw [show (("-" ++ natRepr i.natAbs).data)
        = '-' :: (natRepr i.natAbs).data from rfl] at h
    rcases List.mem_cons.mp h with h | h
    · exact absurd h.symm (by decide)
    · exact natRepr_no_newline _ h
  · exact natRepr_no_newline _ h

theorem hexDigit_ne_newline (d : Nat) : hexDigit d ≠ '\n' := by
  unfold hexDigit
  split <;> decide

theorem mem_percentByte_ne_newline (b : Nat) : ∀ c ∈ percentByte b, c ≠ '\n' := by
  intro c hc
  simp [percentByte] at hc
  rcases hc with hc | hc | hc
  · subst hc; decide
  · subst hc; exact hexDigit_ne_newline _
  · subst hc; exact hexDigit_ne_newline _

theorem mem_percentFold_ne_newline :
    ∀ (bs : List Nat), ∀ d ∈ bs.foldr (fun b acc => percentByte b ++ acc) [], d ≠ '\n' := by
  intro bs
  induction bs with
  | nil => intro d hd; simp at hd
  | cons b rest ih =>
    intro d hd
    rcases List.mem_append.mp hd with hd | hd
    · exact mem_percentByte_ne_newline b d hd
    · exact ih d hd

theorem mem_pyQuoteChar_ne_newline (c : Char) : ∀ d ∈ pyQuoteChar c, d ≠ '\n' := by
  intro d hd
  unfold pyQuoteChar at hd
  by_cases h1 : c.toNat < 128
  · rw [if_pos h1] at hd
    by_cases h2 : isUnreservedChar c
    · rw [if_pos h2] at hd
      have hdc : d = c := by simpa using hd
      rw [hdc]
      intro hcn
      rw [hcn] at h2
      exact absurd h2 (by decide)
    · rw [if_neg h2] at hd
      exact mem_percentByte_ne_newline _ d hd
  · rw [if_neg h1] at hd
    exact mem_percentFold_ne_newline (utf8Bytes c) d hd

theorem mem_quoteFold_ne_newline :
    ∀ (cs : List Char), ∀ d ∈ cs.foldr (fun c acc => pyQuoteChar c ++ acc) [], d ≠ '\n' := by
  intro cs
  induction cs with
  | nil => intro d hd; simp at hd
  | cons c rest ih =>
    intro d hd
    rw [List.foldr_cons] at hd
    rcases List.mem_append.mp hd with hd | hd
    · exact mem_pyQuoteChar_ne_newline c d hd
    · exact ih d hd

theorem pyQuote_no_newline (s : String) : '\n' ∉ (pyQuote s).data := by
  intro h
  have hdata : (pyQuote s).data
      = s.data.foldr (fun c acc => pyQuoteChar c ++ acc) [] := rfl
  rw [hdata] at h
  exact mem_quoteFold_ne_newline s.data '\n' h rfl

theorem mem_rstripSlashL_subset : ∀ (l : List Char), ∀ c ∈ rstripSlashL l, c ∈ l := by
  intro l
  induction l with
  | nil => intro c hc; simp [rstripSlashL] at hc
  | cons a as ih =>
    intro c hc
    unfold rstripSlashL at hc
    rcases h : rstripSlashL as with - | ⟨r, rs⟩ <;> rw [h] at hc
    · have hc' : c ∈ (if a = '/' then ([] : List Char) else [a]) := hc
      split at hc'
      · simp at hc'
      · have hca : c = a := by simpa using hc'
        rw [hca]
        exact List.mem_cons_self a as
    · have hc' : c ∈ a :: r :: rs := hc
      rcases List.mem_cons.mp hc' with h1 | h1
      · rw [h1]
        exact List.mem_cons_self a as
      · exact List.mem_cons_of_mem _ (ih c (by rw [h]; exact h1))

theorem proxy_url_no_newline {serviceBase : String}
    (hs : '\n' ∉ serviceBase.data) (target : String) :
    '\n' ∉ (proxy_url serviceBase target).data := by
  intro h
  unfold proxy_url at h
  simp only [String.data_append] at h
  rcases List.mem_append.mp h with h | h
  · rcases List.mem_append.mp h with h | h
    · exact hs (mem_rstripSlashL_subset _ _ h)
    · simp at h
  · exact pyQuote_no_newline target h

theorem proxy_url_ne_nil (serviceBase target : String) :
    (proxy_url serviceBase target).data ≠ [] := by
  unfold proxy_url
  simp only [String.data_append]
  intro h
  have := congrArg List.length h
  simp at this

theorem rstripSlashL_head {l : List Char} {r : Char} {rs : List Char}
    (h : rstripSlashL l = r :: rs) : l.head? = some r := by
  cases l with
  | nil => simp [rstripSlashL] at h
  | cons a as =>
    unfold rstripSlashL at h
    rcases h2 : rstripSlashL as with - | ⟨x, xs⟩ <;> rw [h2] at h
    · have h' : (if a = '/' then ([] : List Char) else [a]) = r :: rs := h
      split at h'
      · exact absurd h' (by simp)
      · have : a = r := (List.cons.inj h').1
        simp [this]
    · have h' : a :: x :: xs = r :: rs := h
      have : a = r := (List.cons.inj h').1
      simp [this]

theorem proxy_url_data (serviceBase target : String) :
    (proxy_url serviceBase target).data
      = rstripSlashL serviceBase.data ++ "/proxy?url=".data ++ (pyQuote target).data := by
  rfl

theorem proxy_url_head_not_hash {serviceBase : String}
    (hs : serviceBase.data.head? ≠ some '#') (target : String) :
    (proxy_url serviceBase target).data.head? ≠ some '#' := by
  rw [proxy_url_data]
  rcases h : rstripSlashL serviceBase.data with - | ⟨r, rs⟩
  · intro hcontra
    rw [List.nil_append] at hcontra
    have h2 : ("/proxy?url=".data ++ (pyQuote target).data).head? = some '/' := rfl
    rw [h2] at hcontra
    exact absurd (Option.some.inj hcontra) (by decide)
  · simp only [List.cons_append, List.head?_cons]
    intro hcontra
    have hr : r = '#' := Option.some.inj hcontra
    apply hs
    rw [rstripSlashL_head h, hr]

theorem mem_pyInsert (key : α → Int) :
    ∀ (acc : List α) (a x : α), x ∈ pyInsert key acc a ↔ x ∈ acc ∨ x = a := by
  intro acc
  induction acc with
  | nil => intro a x; simp [pyInsert]
  | cons b bs ih =>
    intro a x
    unfold pyInsert
    by_cases h : key b ≤ key a
    · rw [if_pos h]
      simp only [List.mem_cons, ih]
      tauto
    · rw [if_neg h]
      simp only [List.mem_cons]
      tauto

theorem sorted_pyInsert (key : α → Int) :
    ∀ (acc : List α) (a : α),
      List.Pairwise (fun x y => key x ≤ key y) acc →
      List.Pairwise (fun x y => key x ≤ key y) (pyInsert key acc a) := by
  intro acc
  induction acc with
  | nil => intro a _; simp [pyInsert]
  | cons b bs ih =>
    intro a hp
    rw [List.pairwise_cons] at hp
    obtain ⟨hb, hbs⟩ := hp
    unfold pyInsert
    by_cases h : key b ≤ key a
    · rw [if_pos h]
      rw [List.pairwise_cons]
      constructor
      · intro x hx
        rcases (mem_pyInsert key bs a x).mp hx with hx | hx
        · exact hb x hx
        · rw [hx]; exact h
      · exact ih a hbs
    · rw [if_neg h]
      rw [List.pairwise_cons]
      constructor
      · intro x hx
        rcases List.mem_cons.mp hx with hx | hx
        · rw [hx]; omega
        · have h1 : key b ≤ key x := hb x hx
          omega
      · rw [List.pairwise_cons]
        exact ⟨hb, hbs⟩

theorem length_pyInsert (key : α → Int) :
    ∀ (acc : List α) (a : α), (pyInsert key acc a).length = acc.length + 1 := by
  intro acc
  induction acc with
  | nil => intro a; simp [pyInsert]
  | cons b bs ih =>
    intro a
    unfold pyInsert
    by_cases h : key b ≤ key a
    · rw [if_pos h]
      simp [ih a]
    · rw [if_neg h]
      simp

theorem filter_pyInsert (key : α → Int) (k : Int) :
    ∀ (acc : List α) (a : α),
      List.Pairwise (fun x y => key x ≤ key y) acc →
      (pyInsert key acc a).filter (fun x => decide (key x = k))
        = if key a = k then
            acc.filter (fun x => decide (key x = k)) ++ [a]
          else acc.filter (fun x => decide (key x = k)) := by
  intro acc
  induction acc with
  | nil =>
    intro a _
    by_cases h : key a = k
    · simp [pyInsert, List.filter, h]
    · simp [pyInsert, List.filter, h]
  | cons b bs ih =>
    intro a hp
    rw [List.pairwise_cons] at hp
    obtain ⟨hb, hbs⟩ := hp
    unfold pyInsert
    by_cases h : key b ≤ key a
    · rw [if_pos h]
      rw [List.filter_cons, List.filter_cons]
      by_cases hbk : key b = k
      · have hd : (decide (key b = k)) = true := by simp [hbk]
        rw [hd]
        simp only [ite_true, if_pos rfl]
        rw [ih a hbs]
        by_cases hak : key a = k
        · rw [if_pos hak, if_pos hak]
          simp
        · rw [if_neg hak, if_neg hak]
      · have hd : (decide (key b = k)) = false := by simp [hbk]
        rw [hd]
        simp only [Bool.false_eq_true, ite_false]
        exact ih a hbs
    · rw [if_neg h]
      rw [List.filter_cons]
      by_cases hak : key a = k
      · have hd : (decide (key a = k)) = true := by simp [hak]
        rw [hd]
        simp only [ite_true, if_pos hak]
        have hempty : (b :: bs).filter (fun x => decide (key x = k)) = [] := by
          rw [List.filter_eq_nil_iff]
          intro x hx
          simp only [decide_eq_true_eq]
          rcases List.mem_cons.mp hx with hx | hx
          · rw [hx]; omega
          · have := hb x hx; omega
        rw [hempty]
        simp
      · have hd : (decide (key a = k)) = false := by simp [hak]
        rw [hd]
        simp only [Bool.false_eq_true, ite_false, if_neg hak]

theorem pySortAux_props (key : α → Int) :
    ∀ (l acc : List α),
      List.Pairwise (fun x y => key x ≤ key y) acc →
      List.Pairwise (fun x y => key x ≤ key y) (l.foldl (pyInsert key) acc)
      ∧ (∀ k, (l.foldl (pyInsert key) acc).filter (fun x => decide (key x = k))
          = acc.filter (fun x => decide (key x = k))
            ++ l.filter (fun x => decide (key x = k)))
      ∧ (l.foldl (pyInsert key) acc).length = acc.length + l.length := by
  intro l
  induction l with
  | nil =>
    intro acc h
    exact ⟨h, fun k => by simp, by simp⟩
  | cons a rest ih =>
    intro acc h
    have hins := sorted_pyInsert key acc a h
    obtain ⟨hs, hf, hlen⟩ := ih (pyInsert key acc a) hins
    refine ⟨hs, ?_, ?_⟩
    · intro k
      rw [List.foldl_cons, hf k, filter_pyInsert key k acc a h, List.filter_cons]
      by_cases hak : key a = k
      · have hd : (decide (key a = k)) = true := by simp [hak]
        rw [hd, if_pos hak]
        simp
      · have hd : (decide (key a = k)) = false := by simp [hak]
        rw [hd, if_neg hak]
        simp
    · rw [List.foldl_cons, hlen, length_pyInsert]
      simp
      omega

theorem pySortAsc_sorted (key : α → Int) (l : List α) :
    List.Pairwise (fun x y => key x ≤ key y) (pySortAsc key l) :=
  (pySortAux_props key l [] (by simp)).1

theorem pySortAsc_filter (key : α → Int) (l : List α) (k : Int) :
    (pySortAsc key l).filter (fun x => decide (key x = k))
      = l.filter (fun x => decide (key x = k)) := by
  have := (pySortAux_props key l [] (by simp)).2.1 k
  simpa [pySortAsc] using this

theorem pySortAsc_length (key : α → Int) (l : List α) :
    (pySortAsc key l).length = l.length := by
  have := (pySortAux_props key l [] (by simp)).2.2
  simpa [pySortAsc] using this

theorem mem_pySortAsc (key : α → Int) (l : List α) (x : α) :
    x ∈ pySortAsc key l ↔ x ∈ l := by
  constructor
  · intro hx
    have h1 : x ∈ (pySortAsc key l).filter (fun y => decide (key y = key x)) :=
      List.mem_filter.mpr ⟨hx, by simp⟩
    rw [pySortAsc_filter] at h1
    exact (List.mem_filter.mp h1).1
  · intro hx
    have h1 : x ∈ l.filter (fun y => decide (key y = key x)) :=
      List.mem_filter.mpr ⟨hx, by simp⟩
    rw [← pySortAsc_filter key] at h1
    exact (List.mem_filter.mp h1).1

/-- The head of the stable ascending sort is the first element of the input
attaining the minimal key: it is a key-minimum, and it is the head of the
sublist of all elements sharing its key (first-occurrence tie-break). -/
theorem pySortAsc_head (key : α → Int) (l : List α) (hne : l ≠ []) :
    ∃ m, (pySortAsc key l).head? = some m ∧ m ∈ l
      ∧ (∀ x ∈ l, key m ≤ key x)
      ∧ (l.filter (fun x => decide (key x = key m))).head? = some m := by
  rcases hS : pySortAsc key l with - | ⟨m, rest⟩
  · exfalso
    have := pySortAsc_length key l
    rw [hS] at this
    exact hne (List.eq_nil_of_length_eq_zero this.symm)
  · refine ⟨m, by simp, ?_, ?_, ?_⟩
    · rw [← mem_pySortAsc key, hS]
      exact List.mem_cons_self m rest
    · intro x hx
      rw [← mem_pySortAsc key, hS] at hx
      rcases List.mem_cons.mp hx with hx | hx
      · rw [hx]
      · have hp := pySortAsc_sorted key l
        rw [hS, List.pairwise_cons] at hp
        exact hp.1 x hx
    · rw [← pySortAsc_filter key, hS, List.filter_cons]
      simp

theorem head_isSome_of_ne_nil {l : List α} (h : l ≠ []) : l.head?.isSome = true := by
  cases l with
  | nil => exact absurd rfl h
  | cons a as => rfl

theorem pySortAsc_ne_nil (key : α → Int) (l : List α) (hne : l ≠ []) :
    pySortAsc key l ≠ [] := by
  intro h
  have := pySortAsc_length key l
  rw [h] at this
  exact hne (List.eq_nil_of_length_eq_zero this.symm)

theorem pySortDesc_head (key : α → Int) (l : List α) (hne : l ≠ []) :
    ∃ m, (pySortDesc key l).head? = some m ∧ m ∈ l ∧ (∀ x ∈ l, key x ≤ key m) := by
  obtain ⟨m, h1, h2, h3, -⟩ := pySortAsc_head (fun x => -(key x)) l hne
  refine ⟨m, h1, h2, fun x hx => ?_⟩
  have := h3 x hx
  omega

/-- C1: quality selection in get_m3u8 runs over the eligible variants (video
codec present and non-empty URL); the selector best yields a variant of
maximum height, worst of minimum height, a parsable literal t minimizes the
absolute height distance to t with first-occurrence tie-break (stable sort),
and an unparsable literal behaves exactly like best.  The final conjunct is
the spec scenario: quality 540 over heights 144, 360, 720, 1080 with 720
preceding 360 selects the 720 variant. -/
theorem C1_quality_selection (formats : List Format) (q : String) :
    (q = "best" → ∀ c, (selectQuality q (eligible formats)).head? = some c →
      c ∈ eligible formats ∧ ∀ x ∈ eligible formats, effHeight x ≤ effHeight c) ∧
    (q = "worst" → ∀ c, (selectQuality q (eligible formats)).head? = some c →
      c ∈ eligible formats ∧ ∀ x ∈ eligible formats, effHeight c ≤ effHeight x) ∧
    (∀ t, parsePyInt q = some t → ∀ c, (selectQuality q (eligible formats)).head? = some c →
      c ∈ eligible formats
      ∧ (∀ x ∈ eligible formats, |effHeightZ c - t| ≤ |effHeightZ x - t|)
      ∧ ((eligible formats).filter
          (fun x => decide (|effHeightZ x - t| = |effHeightZ c - t|))).head? = some c) ∧
    (parsePyInt q = none → q ≠ "best" → q ≠ "worst" →
      selectQuality q (eligible formats) = selectQuality "best" (eligible formats)) ∧
    (eligible formats ≠ [] → (selectQuality q (eligible formats)).head?.isSome = true) ∧
    (selectQuality "540" (eligible scenarioFormats)).head? = some fmt720 := by
  refine ⟨?_, ?_, ?_, ?_, ?_, by decide⟩
  · intro hq c hc
    rw [hq] at hc
    unfold selectQuality at hc
    rw [if_pos rfl] at hc
    have hne : eligible formats ≠ [] := by
      intro h
      rw [h] at hc
      simp [pySortDesc, pySortAsc] at hc
    obtain ⟨m, h1, h2, h3⟩ := pySortDesc_head effHeightZ (eligible formats) hne
    rw [hc] at h1
    have hm : m = c := (Option.some.inj h1).symm
    rw [hm] at h2 h3
    refine ⟨h2, fun x hx => ?_⟩
    have := h3 x hx
    unfold effHeightZ at this
    exact_mod_cast this
  · intro hq c hc
    rw [hq] at hc
    unfold selectQuality at hc
    rw [if_neg (by decide), if_pos rfl] at hc
    have hne : eligible formats ≠ [] := by
      intro h
      rw [h] at hc
      simp [pySortAsc] at hc
    obtain ⟨m, h1, h2, h3, -⟩ := pySortAsc_head effHeightZ (eligible formats) hne
    rw [hc] at h1
    have hm : m = c := (Option.some.inj h1).symm
    rw [hm] at h2 h3
    refine ⟨h2, fun x hx => ?_⟩
    have := h3 x hx
    unfold effHeightZ at this
    exact_mod_cast this
  · intro t ht c hc
    have hqb : q ≠ "best" := by
      intro h
      rw [h] at ht
      rw [show parsePyInt "best" = none from by decide] at ht
      exact Option.noConfusion ht
    have hqw : q ≠ "worst" := by
      intro h
      rw [h] at ht
      rw [show parsePyInt "worst" = none from by decide] at ht
      exact Option.noConfusion ht
    unfold selectQuality at hc
    rw [if_neg hqb, if_neg hqw, ht] at hc
    have hne : eligible formats ≠ [] := by
      intro h
      rw [h] at hc
      simp [pySortAsc] at hc
    obtain ⟨m, h1, h2, h3, h4⟩ :=
      pySortAsc_head (fun f => |effHeightZ f - t|) (eligible formats) hne
    rw [hc] at h1
    have hm : m = c := (Option.some.inj h1).symm
    rw [hm] at h2 h3 h4
    exact ⟨h2, h3, h4⟩
  · intro ht hqb hqw
    unfold selectQuality
    rw [if_neg hqb, if_neg hqw, ht, if_pos rfl]
  · intro hne
    unfold selectQuality
    by_cases hqb : q = "best"
    · rw [if_pos hqb]
      exact head_isSome_of_ne_nil (pySortAsc_ne_nil _ _ hne)
    · rw [if_neg hqb]
      by_cases hqw : q = "worst"
      · rw [if_pos hqw]
        exact head_isSome_of_ne_nil (pySortAsc_ne_nil _ _ hne)
      · rw [if_neg hqw]
        rcases ht : parsePyInt q with - | t
        · exact head_isSome_of_ne_nil (pySortAsc_ne_nil _ _ hne)
        · exact head_isSome_of_ne_nil (pySortAsc_ne_nil _ _ hne)

/-- Witness for C1: the literal selector 540 over the scenario variant list,
with every hypothesis discharged on concrete data. -/
theorem C1_quality_selection_witness :
    parsePyInt "540" = some 540
    ∧ fmt720 ∈ eligible scenarioFormats
    ∧ ∀ x ∈ eligible scenarioFormats, |effHeightZ fmt720 - 540| ≤ |effHeightZ x - 540| := by
  have h := (C1_quality_selection scenarioFormats "540").2.2.1 540 (by decide)
    fmt720 (by decide)
  exact ⟨by decide, h.1, h.2.1⟩

/-- C8: when re-extraction yields no format matching the requested variant
identifier, the subplaylist endpoint falls back to the best (highest-height)
video-bearing variant with a URL instead of failing, and it returns the
variant-not-found error (404) exactly when, additionally, no video-bearing
variant with a URL exists at all. -/
theorem C8_subplaylist_fallback (formats : List Format) (fid : String) :
    (matchedFormats formats fid = [] → eligible formats ≠ [] →
      ∃ c, subplaylistChoice formats fid = .ok c ∧ c ∈ eligible formats
        ∧ ∀ x ∈ eligible formats, effHeight x ≤ effHeight c) ∧
    (subplaylistChoice formats fid = .error 404 ↔
      matchedFormats formats fid = [] ∧ eligible formats = []) := by
  constructor
  · intro hm hne
    obtain ⟨m, h1, h2, h3⟩ := pySortDesc_head effHeightZ (eligible formats) hne
    refine ⟨m, ?_, h2, fun x hx => ?_⟩
    · unfold subplaylistChoice
      rw [hm, h1]
      rfl
    · have := h3 x hx
      unfold effHeightZ at this
      exact_mod_cast this
  · constructor
    · intro herr
      unfold subplaylistChoice at herr
      rcases hm : (matchedFormats formats fid).head? with - | c <;> rw [hm] at herr
      · rcases hs : (pySortDesc effHeightZ (eligible formats)).head? with - | c <;>
          rw [hs] at herr
        · refine ⟨?_, ?_⟩
          · cases hml : matchedFormats formats fid with
            | nil => rfl
            | cons a as => rw [hml] at hm; exact Option.noConfusion hm
          · by_contra hne
            cases hsl : pySortDesc effHeightZ (eligible formats) with
            | nil => exact pySortAsc_ne_nil _ _ hne hsl
            | cons a as => rw [hsl] at hs; exact Option.noConfusion hs
        · exact Except.noConfusion herr
      · exact Except.noConfusion herr
    · rintro ⟨hm, he⟩
      unfold subplaylistChoice
      rw [show matchedFormats formats fid = [] from hm, he]
      rfl

/-- Witness for C8: an unmatched format identifier over the scenario list
falls back to the 1080-height variant. -/
theorem C8_subplaylist_fallback_witness :
    subplaylistChoice scenarioFormats "zzz" = .ok fmt1080
    ∧ ∀ x ∈ eligible scenarioFormats, effHeight x ≤ effHeight fmt1080 := by
  obtain ⟨c, h1, h2, h3⟩ :=
    (C8_subplaylist_fallback scenarioFormats "zzz").1 (by decide) (by decide)
  have hval : subplaylistChoice scenarioFormats "zzz" = .ok fmt1080 := by rfl
  have hc : fmt1080 = c := by
    rw [hval] at h1
    exact Except.ok.inj h1
  exact ⟨hval, hc ▸ h3⟩

theorem alookup_mem {h : Nat} {g : Format} :
    ∀ {m : List (Nat × Format)}, alookup h m = some g → (h, g) ∈ m := by
  intro m
  induction m with
  | nil => intro hl; exact absurd hl (by simp [alookup])
  | cons p ps ih =>
    intro hl
    unfold alookup at hl
    split at hl
    · have hg : p.2 = g := Option.some.inj hl
      have hp : p = (h, g) := by
        rename_i hfst
        exact Prod.ext hfst hg
      rw [← hp]
      exact List.mem_cons_self p ps
    · exact List.mem_cons_of_mem _ (ih hl)

theorem alookup_none_forall {h : Nat} :
    ∀ {m : List (Nat × Format)}, alookup h m = none → ∀ p ∈ m, p.1 ≠ h := by
  intro m
  induction m with
  | nil => intro _ p hp; simp at hp
  | cons q ps ih =>
    intro hl p hp
    unfold alookup at hl
    split at hl
    · exact Option.noConfusion hl
    · rcases List.mem_cons.mp hp with hp | hp
      · rw [hp]; assumption
      · exact ih hl p hp

theorem key_unique {m : List (Nat × Format)} (hnd : (m.map Prod.fst).Nodup)
    {h : Nat} {a b : Format} (ha : (h, a) ∈ m) (hb : (h, b) ∈ m) : a = b := by
  induction m with
  | nil => simp at ha
  | cons p ps ih =>
    rw [List.map_cons, List.nodup_cons] at hnd
    rcases List.mem_cons.mp ha with ha | ha <;> rcases List.mem_cons.mp hb with hb | hb
    · exact (Prod.mk.inj (ha.trans hb.symm)).2
    · exfalso
      apply hnd.1
      rw [← ha]
      exact List.mem_map.mpr ⟨(h, b), hb, rfl⟩
    · exfalso
      apply hnd.1
      rw [← hb]
      exact List.mem_map.mpr ⟨(h, a), ha, rfl⟩
    · exact ih hnd.2 ha hb

theorem updByHeight_none {m : List (Nat × Format)} {f : Format}
    (hl : alookup (effHeight f) m = none) :
    updByHeight m f = m ++ [(effHeight f, f)] := by
  unfold updByHeight
  rw [hl]

theorem updByHeight_some_lt {m : List (Nat × Format)} {f g : Format}
    (hl : alookup (effHeight f) m = some g) (hcmp : tbr0 g < tbr0 f) :
    updByHeight m f
      = m.map (fun p => if p.1 = effHeight f then (effHeight f, f) else p) := by
  unfold updByHeight
  rw [hl]
  show (if tbr0 g < tbr0 f then
      m.map (fun p => if p.1 = effHeight f then (effHeight f, f) else p) else m) = _
  rw [if_pos hcmp]

theorem updByHeight_some_ge {m : List (Nat × Format)} {f g : Format}
    (hl : alookup (effHeight f) m = some g) (hcmp : ¬tbr0 g < tbr0 f) :
    updByHeight m f = m := by
  unfold updByHeight
  rw [hl]
  show (if tbr0 g < tbr0 f then
      m.map (fun p => if p.1 = effHeight f then (effHeight f, f) else p) else m) = _
  rw [if_neg hcmp]

theorem upd_mem (m : List (Nat × Format)) (f : Format) :
    ∀ p ∈ updByHeight m f, p ∈ m ∨ p = (effHeight f, f) := by
  intro p hp
  rcases hl : alookup (effHeight f) m with - | g
  · rw [updByHeight_none hl] at hp
    rcases List.mem_append.mp hp with hp | hp
    · exact Or.inl hp
    · exact Or.inr (by simpa using hp)
  · by_cases hcmp : tbr0 g < tbr0 f
    · rw [updByHeight_some_lt hl hcmp] at hp
      obtain ⟨q, hq, hqe⟩ := List.mem_map.mp hp
      by_cases hq1 : q.1 = effHeight f
      · rw [if_pos hq1] at hqe
        exact Or.inr hqe.symm
      · rw [if_neg hq1] at hqe
        exact Or.inl (hqe ▸ hq)
    · rw [updByHeight_some_ge hl hcmp] at hp
      exact Or.inl hp

theorem upd_keyed {m : List (Nat × Format)} {f : Format}
    (hk : ∀ p ∈ m, effHeight p.2 = p.1) :
    ∀ p ∈ updByHeight m f, effHeight p.2 = p.1 := by
  intro p hp
  rcases upd_mem m f p hp with h1 | h1
  · exact hk p h1
  · rw [h1]

theorem upd_keysNodup {m : List (Nat × Format)} {f : Format}
    (hnd : (m.map Prod.fst).Nodup) :
    ((updByHeight m f).map Prod.fst).Nodup := by
  rcases hl : alookup (effHeight f) m with - | g
  · rw [updByHeight_none hl, List.map_append]
    apply List.Nodup.append hnd (by simp)
    intro a ha hb
    simp at hb
    obtain ⟨p, hp, hfst⟩ := List.mem_map.mp ha
    exact alookup_none_forall hl p hp (hfst.trans hb)
  · by_cases hcmp : tbr0 g < tbr0 f
    · rw [updByHeight_some_lt hl hcmp]
      have hmm : (m.map (fun p => if p.1 = effHeight f then (effHeight f, f) else p)).map
          Prod.fst = m.map Prod.fst := by
        rw [List.map_map]
        apply List.map_congr_left
        intro p hp
        by_cases hph : p.1 = effHeight f
        · simp [hph]
        · simp [hph]
      rw [hmm]
      exact hnd
    · rw [updByHeight_some_ge hl hcmp]
      exact hnd

theorem upd_self_entry {m : List (Nat × Format)} (f : Format) :
    ∃ e, (effHeight f, e) ∈ updByHeight m f ∧ tbr0 f ≤ tbr0 e := by
  rcases hl : alookup (effHeight f) m with - | g
  · rw [updByHeight_none hl]
    exact ⟨f, by simp, le_refl _⟩
  · by_cases hcmp : tbr0 g < tbr0 f
    · rw [updByHeight_some_lt hl hcmp]
      exact ⟨f, List.mem_map.mpr ⟨(effHeight f, g), alookup_mem hl, by simp⟩, le_refl _⟩
    · rw [updByHeight_some_ge hl hcmp]
      exact ⟨g, alookup_mem hl, le_of_not_lt hcmp⟩

theorem upd_mono {m : List (Nat × Format)} (f : Format)
    (hnd : (m.map Prod.fst).Nodup)
    {h : Nat} {e : Format} (he : (h, e) ∈ m) :
    ∃ e2, (h, e2) ∈ updByHeight m f ∧ tbr0 e ≤ tbr0 e2 := by
  rcases hl : alookup (effHeight f) m with - | g
  · rw [updByHeight_none hl]
    exact ⟨e, List.mem_append_left _ he, le_refl _⟩
  · by_cases hcmp : tbr0 g < tbr0 f
    · rw [updByHeight_some_lt hl hcmp]
      by_cases hh : h = effHeight f
      · subst hh
        have heg : e = g := key_unique hnd he (alookup_mem hl)
        refine ⟨f, List.mem_map.mpr ⟨(effHeight f, e), he, by simp⟩, ?_⟩
        rw [heg]
        exact le_of_lt hcmp
      · exact ⟨e, List.mem_map.mpr ⟨(h, e), he, by simp [hh]⟩, le_refl _⟩
    · rw [updByHeight_some_ge hl hcmp]
      exact ⟨e, he, le_refl _⟩

theorem foldl_upd_keyed_nodup :
    ∀ (fs : List Format) (acc : List (Nat × Format)),
      (∀ p ∈ acc, effHeight p.2 = p.1) → ((acc.map Prod.fst).Nodup) →
      (∀ p ∈ fs.foldl updByHeight acc, effHeight p.2 = p.1)
        ∧ ((fs.foldl updByHeight acc).map Prod.fst).Nodup := by
  intro fs
  induction fs with
  | nil => intro acc hk hnd; exact ⟨hk, hnd⟩
  | cons f fs ih =>
    intro acc hk hnd
    exact ih (updByHeight acc f) (upd_keyed hk) (upd_keysNodup hnd)

theorem foldl_upd_spec :
    ∀ (fs : List Format) (acc : List (Nat × Format)),
      (∀ p ∈ acc, effHeight p.2 = p.1) → ((acc.map Prod.fst).Nodup) →
      ∀ h g, (h, g) ∈ fs.foldl updByHeight acc →
        effHeight g = h
        ∧ ((h, g) ∈ acc ∨ g ∈ fs)
        ∧ (∀ e, (h, e) ∈ acc → tbr0 e ≤ tbr0 g)
        ∧ (∀ x ∈ fs, effHeight x = h → tbr0 x ≤ tbr0 g) := by
  intro fs
  induction fs with
  | nil =>
    intro acc hk hnd h g hg
    refine ⟨hk (h, g) hg, Or.inl hg, fun e he => ?_, by simp⟩
    rw [key_unique hnd he hg]
  | cons f fs ih =>
    intro acc hk hnd h g hg
    rw [List.foldl_cons] at hg
    obtain ⟨hkey, hmem, hmono, hmax⟩ :=
      ih (updByHeight acc f) (upd_keyed hk) (upd_keysNodup hnd) h g hg
    refine ⟨hkey, ?_, ?_, ?_⟩
    · rcases hmem with hmem | hmem
      · rcases upd_mem acc f _ hmem with h1 | h1
        · exact Or.inl h1
        · right
          rw [(Prod.mk.inj h1).2]
          exact List.mem_cons_self f fs
      · exact Or.inr (List.mem_cons_of_mem _ hmem)
    · intro e he
      obtain ⟨e2, he2, hle⟩ := upd_mono f hnd he
      exact le_trans hle (hmono e2 he2)
    · intro x hx hxh
      rcases List.mem_cons.mp hx with hx | hx
      · subst hx
        obtain ⟨e, he, hle⟩ := upd_self_entry x (m := acc)
        rw [hxh] at he
        exact le_trans hle (hmono e he)
      · exact hmax x hx hxh

theorem byHeight_spec (fs : List Format) :
    ∀ h g, (h, g) ∈ byHeight fs →
      effHeight g = h ∧ g ∈ fs ∧ (∀ x ∈ fs, effHeight x = h → tbr0 x ≤ tbr0 g) := by
  intro h g hg
  obtain ⟨hk, hmem, -, hmax⟩ := foldl_upd_spec fs [] (by simp) (by simp) h g hg
  exact ⟨hk, hmem.resolve_left (by simp), hmax⟩

theorem byHeight_keyed_nodup (fs : List Format) :
    (∀ p ∈ byHeight fs, effHeight p.2 = p.1) ∧ ((byHeight fs).map Prod.fst).Nodup :=
  foldl_upd_keyed_nodup fs [] (by simp) (by simp)

theorem dedup_heights_nodup (fs : List Format) :
    ((dedupFormats fs).map effHeight).Nodup := by
  obtain ⟨hk, hnd⟩ := byHeight_keyed_nodup fs
  unfold dedupFormats
  rw [List.map_map]
  have hme : (byHeight fs).map (effHeight ∘ Prod.snd) = (byHeight fs).map Prod.fst :=
    List.map_congr_left (fun p hp => hk p hp)
  rw [hme]
  exact hnd

theorem mem_dedupFormats {fs : List Format} {g : Format} (hg : g ∈ dedupFormats fs) :
    g ∈ fs ∧ (∀ x ∈ fs, effHeight x = effHeight g → tbr0 x ≤ tbr0 g) := by
  obtain ⟨p, hp, hps⟩ := List.mem_map.mp hg
  obtain ⟨hk, hmem, hmax⟩ := byHeight_spec fs p.1 p.2 (by rwa [Prod.mk.eta])
  rw [hps] at hk hmem hmax
  exact ⟨hmem, fun x hx hxh => hmax x hx (hxh.trans hk)⟩

theorem filter_key_len_le_one {L : List Format}
    (hnd : (L.map effHeight).Nodup) (k : Int) :
    (L.filter (fun x => decide (-(effHeightZ x) = k))).length ≤ 1 := by
  induction L with
  | nil => simp
  | cons a as ih =>
    rw [List.map_cons, List.nodup_cons] at hnd
    rw [List.filter_cons]
    by_cases h : -(effHeightZ a) = k
    · rw [if_pos (by simp [h])]
      have hnil : as.filter (fun x => decide (-(effHeightZ x) = k)) = [] := by
        rw [List.filter_eq_nil_iff]
        intro x hx
        simp only [decide_eq_true_eq]
        intro hxk
        apply hnd.1
        have hxa : effHeight x = effHeight a := by
          have hz : effHeightZ x = effHeightZ a := by omega
          unfold effHeightZ at hz
          exact_mod_cast hz
        rw [← hxa]
        exact List.mem_map.mpr ⟨x, hx, rfl⟩
      rw [hnil]
      simp
    · rw [if_neg (by simp [h])]
      exact ih hnd.2

theorem pairwise_strict_of_filter_le_one :
    ∀ (L : List Format),
      List.Pairwise (fun x y => -(effHeightZ x) ≤ -(effHeightZ y)) L →
      (∀ k : Int, (L.filter (fun x => decide (-(effHeightZ x) = k))).length ≤ 1) →
      List.Pairwise (fun x y => effHeight y < effHeight x) L := by
  intro L
  induction L with
  | nil => intro _ _; simp
  | cons a as ih =>
    intro hw hf
    rw [List.pairwise_cons] at hw
    rw [List.pairwise_cons]
    refine ⟨?_, ih hw.2 (fun k => ?_)⟩
    · intro y hy
      have hle : -(effHeightZ a) ≤ -(effHeightZ y) := hw.1 y hy
      by_contra hlt
      push_neg at hlt
      have heq : effHeightZ y = effHeightZ a := by
        unfold effHeightZ at hle ⊢
        have hyx : (effHeight y : Int) ≤ (effHeight a : Int) := by omega
        have hxy : (effHeight a : Int) ≤ (effHeight y : Int) := by exact_mod_cast hlt
        omega
      have hcount := hf (-(effHeightZ a))
      rw [List.filter_cons, if_pos (by simp)] at hcount
      have hymem : y ∈ as.filter (fun x => decide (-(effHeightZ x) = -(effHeightZ a))) :=
        List.mem_filter.mpr ⟨hy, by simp [heq]⟩
      have hpos : 0 < (as.filter
          (fun x => decide (-(effHeightZ x) = -(effHeightZ a)))).length :=
        List.length_pos.mpr (List.ne_nil_of_mem hymem)
      rw [List.length_cons] at hcount
      omega
    · have hk := hf k
      rw [List.filter_cons] at hk
      split at hk
      · rw [List.length_cons] at hk
        omega
      · exact hk

theorem masterFormats_sorted_strict (formats : List Format) :
    List.Pairwise (fun f g => effHeight g < effHeight f) (masterFormats formats) := by
  unfold masterFormats
  apply List.Pairwise.sublist (List.take_sublist _ _)
  apply pairwise_strict_of_filter_le_one
  · exact pySortAsc_sorted (fun f => -(effHeightZ f)) _
  · intro k
    rw [show pySortDesc effHeightZ (dedupFormats (videoFormats formats))
        = pySortAsc (fun f => -(effHeightZ f)) (dedupFormats (videoFormats formats))
        from rfl]
    rw [pySortAsc_filter]
    exact filter_key_len_le_one (dedup_heights_nodup _) k

theorem masterFormats_mem (formats : List Format) :
    ∀ f ∈ masterFormats formats,
      f ∈ videoFormats formats
      ∧ ∀ x ∈ videoFormats formats, effHeight x = effHeight f → tbr0 x ≤ tbr0 f := by
  intro f hf
  unfold masterFormats at hf
  have h1 : f ∈ pySortDesc effHeightZ (dedupFormats (videoFormats formats)) :=
    List.mem_of_mem_take hf
  have h2 : f ∈ dedupFormats (videoFormats formats) := (mem_pySortAsc _ _ f).mp h1
  exact mem_dedupFormats h2

theorem masterFormats_len (formats : List Format) :
    (masterFormats formats).length ≤ 8 := by
  unfold masterFormats
  exact List.length_take_le 8 _

/-- C4: with quality master, or a live video, get_m3u8 always emits the
synthetic master playlist (never a single-segment playlist); the master
enumerates at most 8 entries, in strictly descending height order, keeping
per height only a format of maximal bitrate among the video formats; each
entry carries bandwidth int((tbr or 1000 kbps) * 1000), width defaulting to
height*16/9, frame rate defaulting to 30, the name label "(height)p", and a
URI built by subUrl, which points at this service's /api/subplaylist
endpoint rather than at any origin URL. -/
theorem C4_master_playlist (info : VideoInfo) (quality urlParam base : String) :
    ((quality = "master" ∨ isLiveFlag info = true) →
      ∀ k s, getM3u8Response info urlParam quality base = .ok (k, s) →
        k = .masterPlaylist ∧ build_master_m3u8_from_formats info base = some s) ∧
    (masterFormats info.formats).length ≤ 8 ∧
    List.Pairwise (fun f g => effHeight g < effHeight f) (masterFormats info.formats) ∧
    (∀ f ∈ masterFormats info.formats,
      f ∈ videoFormats info.formats
      ∧ (∀ x ∈ videoFormats info.formats, effHeight x = effHeight f → tbr0 x ≤ tbr0 f)
      ∧ (∀ t, f.tbr = some t → t ≠ 0 → bwOf f = (t.num * 1000).tdiv t.den)
      ∧ (f.tbr = none → bwOf f = 1000000)
      ∧ (f.width = none → widthOf f = effHeight f * 16 / 9)
      ∧ (f.fps = none → fpsOf f = 30)
      ∧ streamInfLine f
          = "#EXT-X-STREAM-INF:BANDWIDTH=" ++ intRepr (bwOf f)
            ++ ",RESOLUTION=" ++ natRepr (widthOf f) ++ "x" ++ natRepr (effHeight f)
            ++ ",FRAME-RATE=" ++ natRepr (fpsOf f)
            ++ ",NAME=\"" ++ natRepr (effHeight f) ++ "p\"") ∧
    (videoFormats info.formats ≠ [] →
      build_master_m3u8_from_formats info base
        = some ("#EXTM3U\n#EXT-X-VERSION:3\n\n"
            ++ String.join ((masterFormats info.formats).map
                (fun f => streamInfLine f ++ "\n"
                  ++ subUrl base info.webpage_url f.format_id ++ "\n")))) := by
  refine ⟨?_, masterFormats_len _, masterFormats_sorted_strict _, ?_, ?_⟩
  · intro hq k s hresp
    unfold getM3u8Response at hresp
    have hcond : (quality = "master" || isLiveFlag info) = true := by
      rcases hq with hq | hq
      · simp [hq]
      · simp [hq]
    rw [if_pos hcond] at hresp
    rcases hb : build_master_m3u8_from_formats info base with - | s0 <;> rw [hb] at hresp
    · exact Except.noConfusion hresp
    · have hpair := Except.ok.inj hresp
      have hk : PlaylistKind.masterPlaylist = k := (Prod.mk.inj hpair).1
      have hs : s0 = s := (Prod.mk.inj hpair).2
      exact ⟨hk.symm, congrArg some hs⟩
  · intro f hf
    obtain ⟨h1, h2⟩ := masterFormats_mem info.formats f hf
    refine ⟨h1, h2, ?_, ?_, ?_, ?_, rfl⟩
    · intro t ht htz
      unfold bwOf pyTruncMul1000 tbrOr1000 tbr0
      rw [ht]
      have hgd : (some t).getD 0 = t := rfl
      rw [hgd, if_neg htz]
    · intro hn
      unfold bwOf pyTruncMul1000 tbrOr1000 tbr0
      rw [hn]
      decide
    · intro hn
      unfold widthOf
      rw [hn]
      simp
    · intro hn
      unfold fpsOf
      rw [hn]
      simp
  · intro hne
    unfold build_master_m3u8_from_formats
    rw [if_neg hne]

/-- Witness for C4: a concrete master request with duplicate heights; the
response kind is the master playlist and the structure facts hold on this
input. -/
theorem C4_master_playlist_witness :
    build_master_m3u8_from_formats masterInfo "http://svc"
      = some ((build_master_m3u8_from_formats masterInfo "http://svc").getD "")
    ∧ (masterFormats masterInfo.formats).length ≤ 8
    ∧ List.Pairwise (fun f g => effHeight g < effHeight f)
        (masterFormats masterInfo.formats) := by
  have h := C4_master_playlist masterInfo "master" "u" "http://svc"
  have h1 := h.1 (Or.inl rfl) PlaylistKind.masterPlaylist
    ((build_master_m3u8_from_formats masterInfo "http://svc").getD "") (by rfl)
  exact ⟨h1.2, h.2.1, h.2.2.1⟩

theorem pad3_no_newline (k : Nat) : '\n' ∉ (pad3 k).data := by
  intro h
  unfold pad3 at h
  split at h
  · rw [show ("00" ++ natRepr k).data = '0' :: '0' :: (natRepr k).data from rfl] at h
    rcases List.mem_cons.mp h with h | h
    · exact absurd h.symm (by decide)
    rcases List.mem_cons.mp h with h | h
    · exact absurd h.symm (by decide)
    · exact natRepr_no_newline _ h
  split at h
  · rw [show ("0" ++ natRepr k).data = '0' :: (natRepr k).data from rfl] at h
    rcases List.mem_cons.mp h with h | h
    · exact absurd h.symm (by decide)
    · exact natRepr_no_newline _ h
  · exact natRepr_no_newline _ h

theorem formatFixed3_no_newline (q : ℚ) : '\n' ∉ (formatFixed3 q).data := by
  intro h
  unfold formatFixed3 at h
  split at h <;> simp only [String.data_append, List.mem_append] at h
  · rcases h with ((h | h) | h) | h
    · exact absurd h (by decide)
    · exact natRepr_no_newline _ h
    · exact absurd h (by decide)
    · exact pad3_no_newline _ h
  · rcases h with (h | h) | h
    · exact natRepr_no_newline _ h
    · exact absurd h (by decide)
    · exact pad3_no_newline _ h

/-- C5 (amended): the single-segment playlist consists of exactly the eight
lines version-3 header, target duration, media-sequence 0, VOD type, the
EXTINF line with duration and title, the proxied segment URI, and the
end-of-list marker; parsed back it has exactly one non-tag (segment URI)
line and contains the end-of-list marker.  The target duration is
int(duration) + 1 (truncation), which differs from the spec's
ceil(duration) + 1 on non-integral durations. -/
theorem C5_single_playlist (url : String) (d : ℚ) (title base : String)
    (htitle : '\n' ∉ title.data) (hbase : '\n' ∉ base.data)
    (hhash : base.data.head? ≠ some '#') :
    splitlinesStr (build_single_m3u8 url d title base)
      = ["#EXTM3U", "#EXT-X-VERSION:3",
         "#EXT-X-TARGETDURATION:" ++ intRepr (pyTrunc d + 1),
         "#EXT-X-MEDIA-SEQUENCE:0", "#EXT-X-PLAYLIST-TYPE:VOD",
         "#EXTINF:" ++ formatFixed3 d ++ "," ++ title,
         proxy_url base url, "#EXT-X-ENDLIST"]
    ∧ ((splitlinesStr (build_single_m3u8 url d title base)).filter
        (fun l => decide (l.data.head? ≠ some '#'))).length = 1
    ∧ "#EXT-X-ENDLIST" ∈ splitlinesStr (build_single_m3u8 url d title base) := by
  have e : (build_single_m3u8 url d title base).data
      = "#EXTM3U".data ++ '\n' ::
        ("#EXT-X-VERSION:3".data ++ '\n' ::
        (("#EXT-X-TARGETDURATION:" ++ intRepr (pyTrunc d + 1)).data ++ '\n' ::
        ("#EXT-X-MEDIA-SEQUENCE:0".data ++ '\n' ::
        ("#EXT-X-PLAYLIST-TYPE:VOD".data ++ '\n' ::
        (("#EXTINF:" ++ formatFixed3 d ++ "," ++ title).data ++ '\n' ::
        ((proxy_url base url).data ++ '\n' ::
        ("#EXT-X-ENDLIST".data ++ ['\n']))))))) := by
    simp only [build_single_m3u8, String.data_append, List.append_assoc, List.cons_append]
    rfl
  have h3nl : '\n' ∉ ("#EXT-X-TARGETDURATION:" ++ intRepr (pyTrunc d + 1)).data := by
    rw [String.data_append]
    intro h
    rcases List.mem_append.mp h with h | h
    · exact absurd h (by decide)
    · exact intRepr_no_newline _ h
  have h6nl : '\n' ∉ ("#EXTINF:" ++ formatFixed3 d ++ "," ++ title).data := by
    rw [String.data_append, String.data_append, String.data_append]
    intro h
    rcases List.mem_append.mp h with h | h
    · rcases List.mem_append.mp h with h | h
      · rcases List.mem_append.mp h with h | h
        · exact absurd h (by decide)
        · exact formatFixed3_no_newline _ h
      · exact absurd h (by decide)
    · exact htitle h
  have hlines : splitlinesStr (build_single_m3u8 url d title base)
      = ["#EXTM3U", "#EXT-X-VERSION:3",
         "#EXT-X-TARGETDURATION:" ++ intRepr (pyTrunc d + 1),
         "#EXT-X-MEDIA-SEQUENCE:0", "#EXT-X-PLAYLIST-TYPE:VOD",
         "#EXTINF:" ++ formatFixed3 d ++ "," ++ title,
         proxy_url base url, "#EXT-X-ENDLIST"] := by
    unfold splitlinesStr
    rw [e]
    rw [splitlines_append_newline (by decide)]
    rw [splitlines_append_newline (by decide)]
    rw [splitlines_append_newline h3nl]
    rw [splitlines_append_newline (by decide)]
    rw [splitlines_append_newline (by decide)]
    rw [splitlines_append_newline h6nl]
    rw [splitlines_append_newline (proxy_url_no_newline hbase url)]
    rw [show ('\n' :: ([] : List Char)) = ('\n' :: ([] : List Char)) from rfl]
    rw [splitlines_append_newline (by decide)]
    rfl
  refine ⟨hlines, ?_, ?_⟩
  · rw [hlines]
    have h3h : ("#EXT-X-TARGETDURATION:" ++ intRepr (pyTrunc d + 1)).data.head?
        = some '#' := rfl
    have h6h : ("#EXTINF:" ++ formatFixed3 d ++ "," ++ title).data.head? = some '#' := rfl
    have h7h := proxy_url_head_not_hash hhash url
    simp [List.filter_cons, h3h, h6h, h7h]
  · rw [hlines]
    simp

/-- Counterexample for C5 as stated: at duration 10.5 the emitted target
duration line carries int(10.5)+1 = 11, whereas the claimed value
ceil(10.5)+1 is 12. -/
theorem C5_targetduration_counterexample :
    (splitlinesStr (build_single_m3u8 "http://o/v.mp4" dHalf "t" "http://svc"))[2]?
      = some "#EXT-X-TARGETDURATION:11"
    ∧ (⌈dHalf⌉ + 1 : Int) = 12
    ∧ (splitlinesStr (build_single_m3u8 "http://o/v.mp4" dHalf "t" "http://svc"))[2]?
      ≠ some ("#EXT-X-TARGETDURATION:" ++ intRepr 12) := by
  have hd : dHalf = 21 / 2 := by
    unfold dHalf
    rw [Rat.mk'_eq_divInt]
    norm_num [Rat.divInt_eq_div]
  refine ⟨by rfl, ?_, by decide⟩
  rw [hd]
  have hc : (⌈(21 / 2 : ℚ)⌉ : Int) = 11 := by
    rw [Int.ceil_eq_iff]
    constructor <;> norm_num
  rw [hc]
  decide

/-- Witness for C5 (amended) at a concrete input. -/
theorem C5_single_playlist_witness :
    ((splitlinesStr (build_single_m3u8 "http://o/v.mp4" 10 "T" "http://svc")).filter
        (fun l => decide (l.data.head? ≠ some '#'))).length = 1
    ∧ "#EXT-X-ENDLIST"
        ∈ splitlinesStr (build_single_m3u8 "http://o/v.mp4" 10 "T" "http://svc") := by
  have h := C5_single_playlist "http://o/v.mp4" 10 "T" "http://svc"
    (by decide) (by decide) (by decide)
  exact ⟨h.2.1, h.2.2⟩

theorem splitQuoted_spec :
    ∀ (l ct a : List Char), splitQuoted l = some (ct, a) → l = ct ++ '"' :: a := by
  intro l
  induction l with
  | nil => intro ct a h; simp [splitQuoted] at h
  | cons c cs ih =>
    intro ct a h
    unfold splitQuoted at h
    split at h
    · rename_i hq
      injection h with h1
      obtain ⟨h2, h3⟩ := Prod.mk.inj h1
      rw [← h2, ← h3, hq]
      rfl
    · split at h
      · exact Option.noConfusion h
      · rename_i ct0 a0 heq
        injection h with h1
        obtain ⟨h2, h3⟩ := Prod.mk.inj h1
        rw [← h2, ← h3]
        rw [ih ct0 a0 heq]
        rfl

theorem findURIAttr_decomp :
    ∀ (l b ct a : List Char), findURIAttr l = some (b, ct, a) →
      l = b ++ ('U' :: 'R' :: 'I' :: '=' :: '"' :: (ct ++ '"' :: a)) := by
  intro l
  induction l with
  | nil => intro b ct a h; simp [findURIAttr] at h
  | cons c cs ih =>
    intro b ct a h
    unfold findURIAttr at h
    split at h
    · rename_i hcond
      split at h
      · rename_i ct0 a0 hsq
        split at h
        · injection h with h1
          obtain ⟨h2, h3⟩ := Prod.mk.inj h1
          obtain ⟨h4, h5⟩ := Prod.mk.inj h3
          rw [← h2, ← h4, ← h5, List.nil_append]
          have hc : c = 'U' := hcond.1
          have hcs : cs = cs.take 4 ++ cs.drop 4 := (List.take_append_drop 4 cs).symm
          rw [hc]
          rw [show ('U' :: cs = 'U' :: (cs.take 4 ++ cs.drop 4)) from by rw [← hcs]]
          rw [hcond.2, splitQuoted_spec _ _ _ hsq]
          rfl
        · split at h
          · exact Option.noConfusion h
          · rename_i b2 ct2 a2 heq2
            injection h with h1
            obtain ⟨h2, h3⟩ := Prod.mk.inj h1
            obtain ⟨h4, h5⟩ := Prod.mk.inj h3
            rw [← h2, ← h4, ← h5]
            rw [List.cons_append]
            rw [← ih b2 ct2 a2 heq2]
      · split at h
        · exact Option.noConfusion h
        · rename_i b2 ct2 a2 heq2
          injection h with h1
          obtain ⟨h2, h3⟩ := Prod.mk.inj h1
          obtain ⟨h4, h5⟩ := Prod.mk.inj h3
          rw [← h2, ← h4, ← h5]
          rw [List.cons_append]
          rw [← ih b2 ct2 a2 heq2]
    · split at h
      · exact Option.noConfusion h
      · rename_i b2 ct2 a2 heq2
        injection h with h1
        obtain ⟨h2, h3⟩ := Prod.mk.inj h1
        obtain ⟨h4, h5⟩ := Prod.mk.inj h3
        rw [← h2, ← h4, ← h5]
        rw [List.cons_append]
        rw [← ih b2 ct2 a2 heq2]

theorem scanURIF_none {f : String → String} {l : List Char}
    (h : findURIAttr l = none) : ∀ fuel, scanURIF f fuel l = l := by
  intro fuel
  cases fuel with
  | zero => rfl
  | succ fuel =>
    unfold scanURIF
    rw [h]

theorem scanURIF_no_newline {f : String → String}
    (hf : ∀ u, '\n' ∉ (f u).data) :
    ∀ (fuel : Nat) (l : List Char), '\n' ∉ l → '\n' ∉ scanURIF f fuel l := by
  intro fuel
  induction fuel with
  | zero => intro l hl; exact hl
  | succ fuel ih =>
    intro l hl
    unfold scanURIF
    rcases hm : findURIAttr l with - | ⟨b, ct, a⟩
    · exact hl
    · have hdec := findURIAttr_decomp l b ct a hm
      have hb : '\n' ∉ b := by
        intro hmem
        exact hl (hdec ▸ List.mem_append_left _ hmem)
      have ha : '\n' ∉ a := by
        intro hmem
        apply hl
        rw [hdec]
        apply List.mem_append_right
        simp only [List.mem_cons]
        right; right; right; right; right
        exact List.mem_append_right _ (by simp [hmem])
      intro hmem
      rcases List.mem_append.mp hmem with hmem | hmem
      · exact hb hmem
      · simp only [List.mem_cons] at hmem
        rcases hmem with h1 | h1 | h1 | h1 | h1 | hmem
        · exact absurd h1 (by decide)
        · exact absurd h1 (by decide)
        · exact absurd h1 (by decide)
        · exact absurd h1 (by decide)
        · exact absurd h1 (by decide)
        · rcases List.mem_append.mp hmem with hmem | hmem
          · exact hf (String.mk ct) hmem
          · rcases List.mem_cons.mp hmem with h1 | h1
            · exact absurd h1 (by decide)
            · exact ih a ha h1

theorem scanURIF_ne_nil {f : String → String} :
    ∀ (fuel : Nat) (l : List Char), l ≠ [] → scanURIF f fuel l ≠ [] := by
  intro fuel l hl
  cases fuel with
  | zero => exact hl
  | succ fuel =>
    unfold scanURIF
    rcases hm : findURIAttr l with - | ⟨b, ct, a⟩
    · exact hl
    · intro h
      rcases b with - | ⟨x, xs⟩
      · simp at h
      · simp at h

theorem getLast?_map (f : α → β) :
    ∀ (l : List α), (l.map f).getLast? = l.getLast?.map f := by
  intro l
  induction l with
  | nil => rfl
  | cons a as ih =>
    cases as with
    | nil => rfl
    | cons b bs =>
      simp only [List.map_cons]
      rw [List.getLast?_cons_cons, List.getLast?_cons_cons]
      simpa [List.map_cons] using ih

theorem rewriteLine_no_newline {uj : String → String → String} {b s : String}
    (hs : '\n' ∉ s.data) (l : List Char) (hl : '\n' ∉ l) :
    '\n' ∉ (rewriteLine uj b s (String.mk l)).data := by
  unfold rewriteLine
  split
  · exact hl
  split
  · unfold pyReSubURI
    exact scanURIF_no_newline (fun u => proxy_url_no_newline hs (uj b u)) _ _ hl
  · exact proxy_url_no_newline hs _

theorem rewriteLine_ne_nil {uj : String → String → String} {b s : String}
    (l : List Char) (hl : l ≠ []) :
    (rewriteLine uj b s (String.mk l)).data ≠ [] := by
  unfold rewriteLine
  split
  · exact hl
  split
  · unfold pyReSubURI
    exact scanURIF_ne_nil _ _ hl
  · exact proxy_url_ne_nil _ _

/-- C9: the manifest rewrite is a pure function of the manifest text, the
base URL and the service base URL (given any resolver for relative URLs):
equal inputs give equal outputs; and it is the identity on blank lines and
on tag or comment lines containing no complete URI="..." attribute, which
pass through byte for byte. -/
theorem C9_rewrite_pure_identity :
    (∀ (uj uj2 : String → String → String) (c b s c2 b2 s2 : String),
      uj = uj2 → c = c2 → b = b2 → s = s2 →
      rewrite_m3u8 uj c b s = rewrite_m3u8 uj2 c2 b2 s2) ∧
    (∀ (uj : String → String → String) (b s line : String), pstrip line = "" →
      rewriteLine uj b s line = line) ∧
    (∀ (uj : String → String → String) (b s line : String),
      (pstrip line).data.head? = some '#' →
      findURIAttr line.data = none →
      rewriteLine uj b s line = line) := by
  refine ⟨?_, ?_, ?_⟩
  · intro uj uj2 c b s c2 b2 s2 h1 h2 h3 h4
    rw [h1, h2, h3, h4]
  · intro uj b s line h
    unfold rewriteLine
    rw [if_pos h]
  · intro uj b s line hhash hnone
    have hne : pstrip line ≠ "" := by
      intro h0
      rw [h0] at hhash
      exact Option.noConfusion hhash
    unfold rewriteLine
    rw [if_neg hne, if_pos hhash]
    unfold pyReSubURI
    rw [scanURIF_none hnone]

/-- Witness for C9: a whitespace line and a URI-free tag line pass through
the rewriter unchanged. -/
theorem C9_rewrite_pure_identity_witness :
    pstrip "   " = ""
    ∧ rewriteLine uj0 "http://b/" "http://s" "   " = "   "
    ∧ (pstrip "#EXT-X-VERSION:3").data.head? = some '#'
    ∧ findURIAttr ("#EXT-X-VERSION:3" : String).data = none
    ∧ rewriteLine uj0 "http://b/" "http://s" "#EXT-X-VERSION:3" = "#EXT-X-VERSION:3" := by
  refine ⟨by decide, ?_, by decide, by decide, ?_⟩
  · exact C9_rewrite_pure_identity.2.1 uj0 "http://b/" "http://s" "   " (by decide)
  · exact C9_rewrite_pure_identity.2.2 uj0 "http://b/" "http://s" "#EXT-X-VERSION:3"
      (by decide) (by decide)

/-- Counterexample for C10 as stated: the input consisting of the line a
followed by a trailing newline-terminated blank line splits into 2 lines,
but the rewritten output splits into 1: the final empty line is dropped by
the newline join. -/
theorem C10_line_count_counterexample :
    (splitlines ("a\n\n" : String).data).length = 2
    ∧ (splitlines (rewrite_m3u8 uj0 "a\n\n" "http://b/" "http://p").data).length = 1 :=
  ⟨by rfl, by rfl⟩

/-- C10 (amended): the rewriter maps each input line (as produced by
splitlines) to exactly one output line and joins them with newlines, so
when the final input line is nonempty (the input does not end in a
newline), the output's splitlines list is exactly the per-line image and in
particular has the same length; a trailing newline on the input produces a
final empty line that the join drops, the only structure not carried
over. -/
theorem C10_line_structure (uj : String → String → String)
    (content b s : String) (hs : '\n' ∉ s.data)
    (hlast : (splitlines content.data).getLast? ≠ some []) :
    splitlines (rewrite_m3u8 uj content b s).data
      = (splitlines content.data).map
          (fun l => (rewriteLine uj b s (String.mk l)).data)
    ∧ (splitlines (rewrite_m3u8 uj content b s).data).length
      = (splitlines content.data).length := by
  have hdata : (rewrite_m3u8 uj content b s).data
      = joinLines ((splitlines content.data).map
          (fun l => (rewriteLine uj b s (String.mk l)).data)) := rfl
  have hmain : splitlines (joinLines ((splitlines content.data).map
      (fun l => (rewriteLine uj b s (String.mk l)).data)))
      = (splitlines content.data).map
          (fun l => (rewriteLine uj b s (String.mk l)).data) := by
    apply splitlines_joinLines
    · intro g hg
      obtain ⟨l0, hl0, hfl⟩ := List.mem_map.mp hg
      rw [← hfl]
      exact rewriteLine_no_newline hs l0 (mem_splitlines_no_newline _ l0 hl0)
    · rw [getLast?_map]
      intro hcon
      rcases hl : (splitlines content.data).getLast? with - | g0 <;> rw [hl] at hcon
      · simp at hcon
      · simp at hcon
        have hg0 : g0 ≠ [] := fun h0 => hlast (by rw [hl, h0])
        exact rewriteLine_ne_nil g0 hg0 hcon
  constructor
  · rw [hdata]
    exact hmain
  · rw [hdata, hmain, List.length_map]

/-- Witness for C10 (amended): a two-line manifest without trailing newline
keeps its two lines through the rewrite. -/
theorem C10_line_structure_witness :
    splitlines (rewrite_m3u8 uj0 "#A\nx" "http://b/" "http://p").data
      = (splitlines ("#A\nx" : String).data).map
          (fun l => (rewriteLine uj0 "http://b/" "http://p" (String.mk l)).data)
    ∧ (splitlines (rewrite_m3u8 uj0 "#A\nx" "http://b/" "http://p").data).length
      = (splitlines ("#A\nx" : String).data).length :=
  C10_line_structure uj0 "#A\nx" "http://b/" "http://p" (by decide) (by decide)

theorem containsSub_append_self :
    ∀ (a pat : List Char), containsSub pat (a ++ pat) = true := by
  intro a pat
  induction a with
  | nil =>
    rw [List.nil_append]
    cases pat with
    | nil => rfl
    | cons c cs =>
      unfold containsSub
      rw [List.take_length]
      simp
  | cons x xs ih =>
    rw [List.cons_append]
    unfold containsSub
    rw [ih]
    simp

/-- C2 (spec-modelled): a non-blank non-tag manifest line whose URL carries
a /sq/(number)/ path segment is replaced by the reconstruction link keyed
by the video reference, variant identifier and that number (never the
origin URL: the output is exactly the service's /segment route, which
embeds the number); blank and tag lines, and bare lines without a
recognizable sequence token, pass through unchanged. -/
theorem C2_sequence_rewrite (videoRef variantId : String) (line : String) :
    (∀ n, pstrip line ≠ "" → (pstrip line).data.head? ≠ some '#' →
      seqToken (pstrip line).data = some n →
      rewriteLineSeq videoRef variantId line = reconLink videoRef variantId n) ∧
    (pstrip line ≠ "" → (pstrip line).data.head? ≠ some '#' →
      seqToken (pstrip line).data = none →
      rewriteLineSeq videoRef variantId line = line) ∧
    (pstrip line = "" ∨ (pstrip line).data.head? = some '#' →
      rewriteLineSeq videoRef variantId line = line) ∧
    (∀ n, containsSub (natRepr n).data (reconLink videoRef variantId n).data = true) := by
  refine ⟨?_, ?_, ?_, ?_⟩
  · intro n h1 h2 h3
    unfold rewriteLineSeq
    rw [if_neg h1, if_neg h2, h3]
  · intro h1 h2 h3
    unfold rewriteLineSeq
    rw [if_neg h1, if_neg h2, h3]
  · intro h
    unfold rewriteLineSeq
    rcases h with h | h
    · rw [if_pos h]
    · by_cases h1 : pstrip line = ""
      · rw [if_pos h1]
      · rw [if_neg h1, if_pos h]
  · intro n
    have hdata : (reconLink videoRef variantId n).data
        = ("/segment?video=" ++ videoRef ++ "&variant=" ++ variantId ++ "&sq=").data
          ++ (natRepr n).data := rfl
    rw [hdata]
    exact containsSub_append_self _ _

/-- Witness for C2: the spec's example line with sequence number 482. -/
theorem C2_sequence_rewrite_witness :
    seqToken (pstrip "https://o.example/videoplayback/sq/482/seg.ts").data = some 482
    ∧ rewriteLineSeq "VID" "134" "https://o.example/videoplayback/sq/482/seg.ts"
        = reconLink "VID" "134" 482
    ∧ containsSub (natRepr 482).data (reconLink "VID" "134" 482).data = true := by
  refine ⟨by decide, ?_, ?_⟩
  · exact (C2_sequence_rewrite "VID" "134" _).1 482 (by decide) (by decide) (by decide)
  · exact (C2_sequence_rewrite "VID" "134"
      "https://o.example/videoplayback/sq/482/seg.ts").2.2.2 482

/-- Counterexample for C3 as stated: evilHost equals no allow-list entry
and is not a subdomain of one, yet the proxy does not reject it and
dispatches an outbound fetch. -/
theorem C3_allowlist_counterexample :
    hostAllowed evilHost = true
    ∧ (∀ a ∈ ALLOWED_PROXY_HOSTS, evilHost ≠ a)
    ∧ (∀ a ∈ ALLOWED_PROXY_HOSTS, endsWithStr ("." ++ a) evilHost = false)
    ∧ proxy_endpoint ("https://" ++ evilHost ++ "/videoplayback/seg.ts")
        = .ok (.fetchSegment ("https://" ++ evilHost ++ "/videoplayback/seg.ts")
            "video/mp2t") :=
  ⟨by decide, by decide, by decide, by rfl⟩

/-- C3 (amended): the relay rejects a request with 403 and performs no
outbound fetch exactly when the resolved host contains no allow-list entry
as a substring (the 403 outcome and the failed substring test are
equivalent), and only requests passing that substring test reach a fetch
action; the check is substring containment, not exact-host or dot-suffix
membership (hosts such as googlevideo.com.evil.example pass). -/
theorem C3_allowlist_substring (target : String) :
    (hostAllowed (pyNetloc target) = false ↔
      ∀ a ∈ ALLOWED_PROXY_HOSTS, containsSub a.data (pyNetloc target).data = false) ∧
    (proxy_endpoint target = .error 403 ↔ hostAllowed (pyNetloc target) = false) ∧
    (∀ act, proxy_endpoint target = .ok act → hostAllowed (pyNetloc target) = true) := by
  refine ⟨?_, ?_, ?_⟩
  · unfold hostAllowed
    rw [List.any_eq_false]
    constructor
    · intro h a ha
      have := h a ha
      simpa using this
    · intro h a ha
      simp [h a ha]
  · constructor
    · intro herr
      by_cases h : hostAllowed (pyNetloc target) = false
      · exact h
      · exfalso
        unfold proxy_endpoint at herr
        rw [if_neg h] at herr
        by_cases hm : isM3u8Path target = true
        · rw [if_pos (by simp [hm])] at herr
          exact Except.noConfusion herr
        · rw [if_neg (by simpa using hm)] at herr
          exact Except.noConfusion herr
    · intro h
      unfold proxy_endpoint
      rw [if_pos h]
  · intro act hact
    by_cases h : hostAllowed (pyNetloc target) = false
    · unfold proxy_endpoint at hact
      rw [if_pos h] at hact
      exact Except.noConfusion hact
    · simpa using h

/-- Witness for C3 (amended): a host containing no allow-list entry is
rejected with 403 before any fetch. -/
theorem C3_allowlist_substring_witness :
    proxy_endpoint "https://nope.example/x.ts" = .error 403 :=
  (C3_allowlist_substring "https://nope.example/x.ts").2.1.mpr (by decide)

/-- Counterexample for C6 as stated: this target is correctly classified as
a binary segment (despite index.m3u8 mid-path), but its content type is
video/mp2t even though the path's extension is .aac, because the /sq/
marker takes precedence over the extension. -/
theorem C6_contenttype_counterexample :
    proxy_endpoint sqAacTarget = .ok (.fetchSegment sqAacTarget "video/mp2t")
    ∧ endsWithL ".aac".data (pathLower sqAacTarget) = true
    ∧ "video/mp2t" ≠ "audio/aac" :=
  ⟨by rfl, by rfl, by decide⟩

/-- C6 (amended): for allow-listed targets, classification uses explicit
path markers, never substring matching against manifest names: a path with
a /sq/ component or a .ts/.aac/.m4s suffix is served as a binary segment
even when index.m3u8 occurs mid-path; the content type is video/mp2t
whenever the path ends in .ts or contains /seg.ts or /sq/ (these markers
take precedence over the extension, so /sq/ paths ending .aac or .m4s are
also video/mp2t), else video/mp4 for .m4s or .mp4, else audio/aac for
.aac; and only manifest-classified targets are fetched as text and handed
to the rewriter. -/
theorem C6_segment_classification (target : String)
    (hallow : hostAllowed (pyNetloc target) = true) :
    (isSegmentPath target = true →
      proxy_endpoint target = .ok (.fetchSegment target (segContentType target))) ∧
    ((endsWithL ".ts".data (pathEnd target) = true
        ∨ containsSub "/seg.ts".data (pathLower target) = true
        ∨ containsSub "/sq/".data (pathLower target) = true) →
      segContentType target = "video/mp2t") ∧
    (endsWithL ".ts".data (pathEnd target) = false →
      containsSub "/seg.ts".data (pathLower target) = false →
      containsSub "/sq/".data (pathLower target) = false →
      (endsWithL ".m4s".data (pathEnd target) = true
        ∨ endsWithL ".mp4".data (pathEnd target) = true) →
      segContentType target = "video/mp4") ∧
    (endsWithL ".ts".data (pathEnd target) = false →
      containsSub "/seg.ts".data (pathLower target) = false →
      containsSub "/sq/".data (pathLower target) = false →
      endsWithL ".m4s".data (pathEnd target) = false →
      endsWithL ".mp4".data (pathEnd target) = false →
      endsWithL ".aac".data (pathEnd target) = true →
      segContentType target = "audio/aac") ∧
    (∀ t, proxy_endpoint target = .ok (.fetchManifestAndRewrite t) →
      isSegmentPath target = false ∧ isM3u8Path target = true ∧ t = target) := by
  have hnotfalse : ¬(hostAllowed (pyNetloc target) = false) := by simp [hallow]
  refine ⟨?_, ?_, ?_, ?_, ?_⟩
  · intro hseg
    unfold proxy_endpoint
    rw [if_neg hnotfalse]
    have hm : isM3u8Path target = false := by
      unfold isM3u8Path
      rw [hseg]
      rfl
    rw [if_neg (by simp [hm])]
  · intro h
    unfold segContentType
    rcases h with h | h | h <;> simp [h]
  · intro h1 h2 h3 h
    unfold segContentType
    rw [if_neg (by simp [h1, h2, h3])]
    rcases h with h | h <;> simp [h]
  · intro h1 h2 h3 h4 h5 h6
    unfold segContentType
    rw [if_neg (by simp [h1, h2, h3]), if_neg (by simp [h4, h5]), if_pos (by simp [h6])]
  · intro t hact
    unfold proxy_endpoint at hact
    rw [if_neg hnotfalse] at hact
    by_cases hm : isM3u8Path target = true
    · rw [if_pos (by simp [hm])] at hact
      have ht : t = target := by
        have := Except.ok.inj hact
        exact (ProxyAction.fetchManifestAndRewrite.inj this).symm
      refine ⟨?_, hm, ht⟩
      unfold isM3u8Path at hm
      rw [Bool.and_eq_true] at hm
      simpa using hm.1
    · rw [if_neg (by simpa using hm)] at hact
      exact absurd (Except.ok.inj hact) (by simp)

/-- Witness for C6 (amended): the source comment's own example target is
served as a video/mp2t binary segment. -/
theorem C6_segment_classification_witness :
    proxy_endpoint segTsTarget = .ok (.fetchSegment segTsTarget "video/mp2t")
    ∧ segContentType segTsTarget = "video/mp2t" := by
  have h := C6_segment_classification segTsTarget (by decide)
  have h1 := h.1 (by decide)
  have h2 := h.2.1 (Or.inr (Or.inr (by decide)))
  exact ⟨by rw [h1, h2], h2⟩

/-- Counterexample for C7 as stated: the proxy and sub-playlist endpoints
are not the health probe and yet never invoke the key check, even though
the check itself would reject a mismatched key. -/
theorem C7_keygate_counterexample :
    enforcesKey .proxy = false ∧ enforcesKey .subplaylist = false
    ∧ Endpoint.proxy ≠ Endpoint.health ∧ Endpoint.subplaylist ≠ Endpoint.health
    ∧ check_key "secret" none (some "wrong") = some 401 := by
  decide

/-- C7 (amended): when a key is configured, check_key rejects an absent or
mismatched key (X-API-Key header, falling back to the api_key query
parameter) with 401 and accepts a matching one; this gate is invoked by
the playlist, formats, stream-url, info and cookie-management endpoints,
but not by the health probe, the root page, the proxy endpoint or the
sub-playlist endpoint. -/
theorem C7_keygate (apiKey : String) (headerKey queryKey : Option String) :
    (apiKey ≠ "" → effKey headerKey queryKey ≠ some apiKey →
      check_key apiKey headerKey queryKey = some 401) ∧
    (apiKey ≠ "" → effKey headerKey queryKey = some apiKey →
      check_key apiKey headerKey queryKey = none) ∧
    (check_key "" headerKey queryKey = none) ∧
    (∀ e, enforcesKey e = true ↔
      e ∈ ([.m3u8, .formats, .streamUrl, .info,
            .cookiesUpload, .cookiesStatus, .cookiesDelete] : List Endpoint)) := by
  refine ⟨?_, ?_, rfl, ?_⟩
  · intro h1 h2
    unfold check_key
    rw [if_neg h1, if_neg h2]
  · intro h1 h2
    unfold check_key
    rw [if_neg h1, if_pos h2]
  · intro e
    cases e <;> decide

/-- Witness for C7 (amended): a wrong key is rejected and the right key is
accepted at a concrete configuration. -/
theorem C7_keygate_witness :
    check_key "secret" (some "wrong") none = some 401
    ∧ check_key "secret" (some "secret") none = none := by
  have h1 := (C7_keygate "secret" (some "wrong") none).1 (by decide) (by decide)
  have h2 := (C7_keygate "secret" (some "secret") none).2.1 (by decide) (by decide)
  exact ⟨h1, h2⟩

end YM3U8
